import Mathlib

/-
Verification of the GeoGame whitepaper-generation route and the
browser-side download-history module.

The development shallowly embeds the string processing, pagination and
request-handling logic of `src/app/api/whitepaper/generate/route.ts` and
the localStorage history of the downloads component.  Strings are lists
of characters; the JavaScript string methods and the regular expressions
actually used by the code are implemented as executable functions on
`List Char`.  Coordinates and sizes are exact rationals; the text-width
oracle of pdf-lib (`widthOfTextAtSize`) is an arbitrary parameter, so
every theorem about the layout holds for every width function.
-/

set_option maxHeartbeats 1000000
set_option maxRecDepth 100000

namespace GeoGame

/-! ## Character and string utilities (JavaScript semantics) -/

/-- JavaScript whitespace (the `\s` class and `trim`), restricted to the
ASCII whitespace characters: space, tab, newline, carriage return,
vertical tab and form feed. -/
def isWS (c : Char) : Bool :=
  c == ' ' || c == '\t' || c == '\n' || c == '\r' || c == '\x0b' || c == '\x0c'

/-- `String.prototype.trim`. -/
def trimJS (l : List Char) : List Char :=
  ((l.dropWhile isWS).reverse.dropWhile isWS).reverse

/-- `String.prototype.trimStart` / `replace(/^\s+/, '')`. -/
def trimStartJS (l : List Char) : List Char :=
  l.dropWhile isWS

/-- `replace(/\r\n/g, '\n')`: non-overlapping left-to-right
replacement of CRLF pairs; a lone carriage return is kept (the second
replace handles it). -/
def normCRLF : List Char → List Char
  | [] => []
  | [c] => [c]
  | a :: b :: rest =>
    if a = '\r' ∧ b = '\n' then '\n' :: normCRLF rest
    else a :: normCRLF (b :: rest)

/-- `replace(/\r/g, '\n')`. -/
def crToNL (l : List Char) : List Char :=
  l.map (fun c => if c = '\r' then '\n' else c)

/-- Content normalisation of the route (lines 154, 1056-1057):
`content.replace(/\r\n/g, '\n').replace(/\r/g, '\n')`. -/
def normalizeContent (l : List Char) : List Char :=
  crToNL (normCRLF l)

/-- State of the scanner implementing `split(/\n\n+/)`: inside a chunk,
after a single newline, or inside a separator run. -/
inductive SepSt | chunk | oneNL | sepRun
deriving Repr, DecidableEq

/-- Scanner for `String.prototype.split(/\n\n+/)`.  `acc` is the current
chunk reversed, `out` the finished chunks reversed. -/
def splitNNGo : SepSt → List Char → List (List Char) → List Char → List (List Char)
  | st, acc, out, [] =>
    (match st with
     | SepSt.chunk => acc.reverse :: out
     | SepSt.oneNL => ('\n' :: acc).reverse :: out
     | SepSt.sepRun => [] :: out).reverse
  | st, acc, out, c :: rest =>
    match st with
    | SepSt.chunk =>
      if c = '\n' then splitNNGo SepSt.oneNL acc out rest
      else splitNNGo SepSt.chunk (c :: acc) out rest
    | SepSt.oneNL =>
      if c = '\n' then splitNNGo SepSt.sepRun [] (acc.reverse :: out) rest
      else splitNNGo SepSt.chunk (c :: '\n' :: acc) out rest
    | SepSt.sepRun =>
      if c = '\n' then splitNNGo SepSt.sepRun [] out rest
      else splitNNGo SepSt.chunk [c] out rest

/-- `String.prototype.split(/\n\n+/)`. -/
def splitNN (l : List Char) : List (List Char) :=
  splitNNGo SepSt.chunk [] [] l

/-- Scanner for `String.prototype.split(sep)` with a one-character
separator (keeps empty pieces, exactly like JavaScript). -/
def splitCharGo (sep : Char) : List Char → List Char → List (List Char)
  | acc, [] => [acc.reverse]
  | acc, c :: rest =>
    if c = sep then acc.reverse :: splitCharGo sep [] rest
    else splitCharGo sep (c :: acc) rest

/-- `String.prototype.split('\n')` and friends. -/
def splitChar (sep : Char) (l : List Char) : List (List Char) :=
  splitCharGo sep [] l

/-- Number of leading occurrences of `c`. -/
def countLeading (c : Char) : List Char → Nat
  | [] => 0
  | d :: r => if d = c then countLeading c r + 1 else 0

/-- `line.match(/^#{1,3}\s/)` (route line 172): one to three `#`
followed by a whitespace character. -/
def isHeadingLine (l : List Char) : Bool :=
  let n := countLeading '#' l
  decide (1 ≤ n) && decide (n ≤ 3) &&
    (match l.drop n with
     | c :: _ => isWS c
     | [] => false)

/-- `trimmedStart.match(/^(#{1,3})\s+(.+)$/)` (route line 306).  Returns
the number of `#` characters (capture group 1) and capture group 2.  The
regex matches when the string starts with one to three `#`, then at
least one whitespace character, and the remainder is non-empty and free
of `'\n'` (`.` does not match newlines and `$` anchors the end of the
string).  When everything after the `#` run is whitespace, backtracking
of the greedy `\s+` still matches if the last character can serve as
group 2 (it must not be `'\n'`). -/
def headingMatch (l : List Char) : Option (Nat × List Char) :=
  let n := countLeading '#' l
  if 1 ≤ n ∧ n ≤ 3 then
    let rest := l.drop n
    let w := rest.takeWhile isWS
    let r := rest.dropWhile isWS
    if w = [] then none
    else if r ≠ [] then
      if r.contains '\n' then none else some (n, r)
    else
      match rest.getLast? with
      | some c => if 2 ≤ rest.length ∧ c ≠ '\n' then some (n, [c]) else none
      | none => none
  else none

/-- Scanner state for `replace(/^#+\s*/gm, '')` (route line 322). -/
inductive HashSt
  | lineStart
  | middle
  | skipHash
  | skipWs (lastNL : Bool)
deriving Repr, DecidableEq

/-- `replace(/^#+\s*/gm, '')`: at every line start, remove a run of `#`
and the whitespace run (possibly spanning newlines) that follows it. -/
def stripHashGo : HashSt → List Char → List Char
  | _, [] => []
  | HashSt.lineStart, c :: r =>
    if c = '#' then stripHashGo HashSt.skipHash r
    else if c = '\n' then '\n' :: stripHashGo HashSt.lineStart r
    else c :: stripHashGo HashSt.middle r
  | HashSt.middle, c :: r =>
    if c = '\n' then '\n' :: stripHashGo HashSt.lineStart r
    else c :: stripHashGo HashSt.middle r
  | HashSt.skipHash, c :: r =>
    if c = '#' then stripHashGo HashSt.skipHash r
    else if isWS c then stripHashGo (HashSt.skipWs (c = '\n')) r
    else c :: stripHashGo HashSt.middle r
  | HashSt.skipWs lastNL, c :: r =>
    if isWS c then stripHashGo (HashSt.skipWs (c = '\n')) r
    else if lastNL ∧ c = '#' then stripHashGo HashSt.skipHash r
    else c :: stripHashGo HashSt.middle r

/-- `replace(/^#+\s*/gm, '')`. -/
def stripLineStartHashes (l : List Char) : List Char :=
  stripHashGo HashSt.lineStart l

/-- `replace(/X/g, '')` for a single character `X` (`/#+/g`, `/\*/g`). -/
def removeAllChar (x : Char) (l : List Char) : List Char :=
  l.filter (fun c => c ≠ x)

/-- `replace(/XX/g, '')` for a doubled character (`/\*\*/g`, `/__/g`):
non-overlapping left-to-right removal of adjacent pairs. -/
def removeDouble (x : Char) : List Char → List Char
  | [] => []
  | [a] => [a]
  | a :: b :: r =>
    if a = x ∧ b = x then removeDouble x r
    else a :: removeDouble x (b :: r)

/-- Substring test for a doubled character (`includes('**')`,
`includes('__')`). -/
def containsPair (x : Char) : List Char → Bool
  | [] => false
  | [_] => false
  | a :: b :: r => (a == x && b == x) || containsPair x (b :: r)

/-- `replace(/\s+/g, ' ')`: every whitespace run becomes one space.
`prevWS` records whether the previous character was whitespace. -/
def collapseWSGo (prevWS : Bool) : List Char → List Char
  | [] => []
  | c :: r =>
    if isWS c then
      if prevWS then collapseWSGo true r else ' ' :: collapseWSGo true r
    else c :: collapseWSGo false r

/-- `replace(/\s+/g, ' ')`. -/
def collapseWS (l : List Char) : List Char := collapseWSGo false l

/-- `replace(/[\r\n\t]/g, ' ')` (route lines 400, 408, 440). -/
def mapRNT (l : List Char) : List Char :=
  l.map (fun c => if c = '\r' ∨ c = '\n' ∨ c = '\t' then ' ' else c)

/-- `textToRender.split(' ').filter(w => w.trim().length > 0)`
(route line 394). -/
def splitWords (l : List Char) : List (List Char) :=
  (splitChar ' ' l).filter (fun w => trimJS w ≠ [])

/-! ## Paragraph computation (route lines 152-201) -/

/-- Accumulating loop of the single-newline re-split (route lines
170-195): heading lines become their own paragraphs, consecutive
non-heading lines are joined with single spaces. -/
def regroupGo : List (List Char) → List Char → List (List Char) → List (List Char)
  | [], cur, out =>
    (if trimJS cur ≠ [] then trimJS cur :: out else out).reverse
  | l :: ls, cur, out =>
    let line := trimJS l
    if isHeadingLine line then
      let out' := if trimJS cur ≠ [] then line :: trimJS cur :: out else line :: out
      regroupGo ls [] out'
    else
      regroupGo ls (if cur ≠ [] then cur ++ ' ' :: line else line) out

/-- Route lines 166-196: re-split the normalised content on single
newlines and regroup. -/
def regroupLines (normalized : List Char) : List (List Char) :=
  regroupGo ((splitChar '\n' normalized).filter (fun l => trimJS l ≠ [])) [] []

/-- The paragraph list the PDF generator lays out (route lines 152-201):
split the normalised content on blank lines; when that yields fewer
than 5 paragraphs, re-split on single newlines grouping non-heading
lines; if still empty fall back to the trimmed content. -/
def computeParagraphs (content : List Char) : List (List Char) :=
  let normalized := normalizeContent content
  let paras0 := (splitNN normalized).filter (fun p => trimJS p ≠ [])
  let paras1 := if paras0.length < 5 then regroupLines normalized else paras0
  if paras1.length = 0 ∧ trimJS content ≠ [] then [trimJS content] else paras1

/-- Paragraph list of the DOCX generator (route line 480):
`content.split(/\n\n+/).filter(p => p.trim().length > 0)`. -/
def docxParagraphs (content : List Char) : List (List Char) :=
  (splitNN content).filter (fun p => trimJS p ≠ [])

/-- Paragraph list of the PPTX generator (route line 570):
`content.split(/\n\n+/).filter(p => p.trim().length > 0)`. -/
def pptParagraphs (content : List Char) : List (List Char) :=
  (splitNN content).filter (fun p => trimJS p ≠ [])

/-! ## The PDF layout engine (route lines 109-472)

Layout constants of the route: page size 612x792, margins 72, body
12pt with line height 18, headings 18pt with line height 21.6 and
sub-headings 16pt with line height 20.8, paragraph spacing 16,
heading top/bottom margins 24/12, sub-heading top/bottom margins
20/10, maximal image width 468 and maximal image height 316.8. -/

/-- One image handed to the generator: its 0-indexed target page, the
pixel dimensions of the decoded bitmap, and whether pdf-lib can embed
its base64 payload as PNG or JPEG. -/
structure ImgSpec where
  pageIndex : Nat
  pixW : Nat
  pixH : Nat
  ok : Bool
deriving Repr, DecidableEq

/-- One `page.drawText` call: the page it lands on, its coordinates,
font size, whether the bold font was used, and the drawn characters. -/
structure DrawnText where
  page : Nat
  x : ℚ
  y : ℚ
  size : ℚ
  bold : Bool
  text : List Char
deriving Repr, DecidableEq

/-- One `page.drawImage` call: the image's target page index, the page
it was drawn on, and its position and scaled dimensions. -/
structure PlacedImage where
  target : Nat
  page : Nat
  x : ℚ
  y : ℚ
  w : ℚ
  h : ℚ
deriving Repr, DecidableEq

/-- The mutable state of `generateWhitepaperPDF`: the pages created so
far (their dimensions), the vertical cursor, the current page index,
the pages that already received an image, and the draw calls made. -/
structure GenState where
  pageDims : List (ℚ × ℚ)
  y : ℚ
  currentPageIndex : Nat
  placed : List Nat
  texts : List DrawnText
  imagesDrawn : List PlacedImage
deriving Repr, DecidableEq

/-- The width oracle standing for pdf-lib's
`font.widthOfTextAtSize(text, size)`; the flag says whether the bold
font was selected. -/
def WidthFn : Type := Bool → List Char → ℚ → ℚ

/-- `pdfDoc.addPage([612, 792])` followed by the cursor reset and page
index increment (route lines 270-272, 357-359, 370-372, 425-427). -/
def newPage (st : GenState) : GenState :=
  { st with pageDims := st.pageDims ++ [(612, 792)],
            y := 720,
            currentPageIndex := st.currentPageIndex + 1 }

/-- Scaling of route lines 249-265: shrink to the maximal width 468,
then to the maximal height 316.8 (40% of the page height). -/
def scaledDims (pixW pixH : Nat) : ℚ × ℚ :=
  let w1 : ℚ := pixW
  let h1 : ℚ := pixH
  let p2 := if 468 < w1 then (w1 * (468 / w1), h1 * (468 / w1)) else (w1, h1)
  if 1584 / 5 < p2.2 then
    (p2.1 * ((1584 / 5) / p2.2), p2.2 * ((1584 / 5) / p2.2))
  else p2

/-- `placeImageIfNeeded` (route lines 215-291): skip if the page
already has an image; find the first image targeting this page; embed
it (failures leave the state unchanged); scale it; break the page when
it does not fit; draw it centred and advance the cursor. -/
def placeImageIfNeeded (ims : List ImgSpec) (pageIndex : Nat) (st : GenState) : GenState :=
  if pageIndex ∈ st.placed then st
  else
    match ims.find? (fun im => im.pageIndex == pageIndex) with
    | none => st
    | some im =>
      if im.ok then
        let d := scaledDims im.pixW im.pixH
        let st1 := if st.y - d.2 - 16 < 72 then newPage st else st
        let r : PlacedImage :=
          { target := im.pageIndex, page := st1.currentPageIndex,
            x := 72 + (468 - d.1) / 2, y := st1.y - d.2, w := d.1, h := d.2 }
        { st1 with imagesDrawn := r :: st1.imagesDrawn,
                   y := st1.y - d.2 - 24,
                   placed := pageIndex :: st1.placed }
      else st

/-- The page-break idiom of route lines 357-361, 370-374 and 425-429:
add a 612x792 page, reset the cursor to 720, increment the page index
and place the image targeted at the page just reached. -/
def breakAndPlace (ims : List ImgSpec) (st : GenState) : GenState :=
  let st' := newPage st
  placeImageIfNeeded ims st'.currentPageIndex st'

/-- Record one `currentPage.drawText` call (route lines 413-419 and
445-451): x is the 72pt margin, y the current cursor. -/
def drawText (st : GenState) (line : List Char) (size : ℚ) (bold : Bool) : GenState :=
  { st with texts :=
      { page := st.currentPageIndex, x := 72, y := st.y,
        size := size, bold := bold, text := line } :: st.texts }

/-- The heading match of one paragraph (route lines 301-306): the
paragraph is trimmed, its leading whitespace removed again, and the
heading regex applied. -/
def paraHm (para : List Char) : Option (Nat × List Char) :=
  headingMatch (trimStartJS (trimJS para))

/-- `isHeading` (route line 308): the match captured exactly `#`. -/
def paraIsH (para : List Char) : Bool :=
  match paraHm para with | some (1, _) => true | _ => false

/-- `isSubHeading` (route line 309): the match captured `##`. -/
def paraIsSub (para : List Char) : Bool :=
  match paraHm para with | some (2, _) => true | _ => false

/-- `isSubSubHeading` (route line 310): the match captured `###`. -/
def paraIsSubSub (para : List Char) : Bool :=
  match paraHm para with | some (3, _) => true | _ => false

/-- The always-applied cleaning of route lines 327-338: strip `**`,
`__`, `*`, replace `_` by spaces, trim, replace newlines by spaces,
drop carriage returns, and collapse whitespace runs. -/
def cleanMarkdown (cleaned0 : List Char) : List Char :=
  let cleaned1 := removeDouble '*' cleaned0
  let cleaned2 := removeDouble '_' cleaned1
  let cleaned3 := removeAllChar '*' cleaned2
  let cleaned4 := cleaned3.map (fun c => if c = '_' then ' ' else c)
  let t0 := trimJS cleaned4
  let t1 := (t0.map (fun c => if c = '\n' then ' ' else c)).filter (fun c => c ≠ '\r')
  trimJS (collapseWS t1)

/-- The cleaned paragraph before the markdown removals (route lines
313-324): a heading keeps its captured title, any other paragraph has
all `#` characters removed. -/
def paraCleaned0 (para : List Char) : List Char :=
  match paraHm para with
  | some (_, g2) => trimJS g2
  | none => removeAllChar '#' (stripLineStartHashes (trimJS para))

/-- The paragraph text before the validation step (route lines
313-340); the `continue` of line 340 tests this value. -/
def paraT2 (para : List Char) : List Char :=
  cleanMarkdown (paraCleaned0 para)

/-- The safety validation of route lines 342-350: when `#`, `**` or
`__` survived, force-remove the markdown characters. -/
def validateText (t2 : List Char) : List Char :=
  if t2.contains '#' || containsPair '*' t2 || containsPair '_' t2 then
    trimJS (removeAllChar '*' (removeDouble '_' (removeDouble '*' (removeAllChar '#' t2))))
  else t2

/-- The final `textToRender` of one paragraph (route lines 299-350). -/
def paraText (para : List Char) : List Char :=
  validateText (paraT2 para)

/-- Body of one iteration of the word-wrapping loop (route lines
397-436). -/
def wrapStep (wof : WidthFn) (ims : List ImgSpec) (bold : Bool) (textSize lineHeight : ℚ)
    (w : List Char) (cl : List Char) (st : GenState) : List Char × GenState :=
  let testLine := if cl ≠ [] then cl ++ ' ' :: w else w
  let cleanTestLine := mapRNT testLine
  let textWidth := wof bold cleanTestLine textSize
  if 612 - 72 * 2 < textWidth then
    let st2 :=
      if cl ≠ [] then
        let cleanLine := trimJS (mapRNT cl)
        let st1 :=
          if cleanLine ≠ [] then
            { drawText st cleanLine textSize bold with y := st.y - lineHeight }
          else st
        if st1.y - lineHeight < 72 then breakAndPlace ims st1 else st1
      else st
    (w, st2)
  else (testLine, st)

/-- The word-wrapping loop (route lines 395-436), returning the final
`currentLine` and state. -/
def wrapLoop (wof : WidthFn) (ims : List ImgSpec) (bold : Bool) (textSize lineHeight : ℚ) :
    List (List Char) → List Char → GenState → List Char × GenState
  | [], cl, st => (cl, st)
  | w :: ws, cl, st =>
    let p := wrapStep wof ims bold textSize lineHeight w cl st
    wrapLoop wof ims bold textSize lineHeight ws p.1 p.2

/-- Heading top spacing with its page-break check (route lines
352-365). -/
def headingSpace (ims : List ImgSpec) (i : Nat) (isH isSub isSubSub : Bool)
    (st : GenState) : GenState :=
  if (isH || isSub || isSubSub) ∧ 0 < i then
    let topSpacing : ℚ := if isH then 24 else if isSub || isSubSub then 20 else 0
    if st.y - topSpacing < 72 + 18 then breakAndPlace ims st
    else if 0 < topSpacing then { st with y := st.y - topSpacing }
    else st
  else st

/-- Page-break check before drawing content (route lines 367-375). -/
def ensureRoom (ims : List ImgSpec) (requiredLineHeight : ℚ) (st : GenState) : GenState :=
  if st.y - requiredLineHeight < 72 then breakAndPlace ims st else st

/-- Drawing of the trailing line with paragraph spacing (route lines
438-457). -/
def finishLine (cl : List Char) (textSize lineHeight bottomSpacing : ℚ) (bold : Bool)
    (st : GenState) : GenState :=
  if cl ≠ [] then
    let cleanLine := trimJS (mapRNT cl)
    if cleanLine ≠ [] then
      let st' := drawText st cleanLine textSize bold
      { st' with y := st'.y - (lineHeight + bottomSpacing) }
    else st
  else st

/-- Layout of one cleaned paragraph (route lines 352-460): heading
spacing, page-break checks, word wrapping and the trailing line with
its paragraph spacing.  The flags and `textToRender` come from
`paraAnalysis`, `i` is the loop index. -/
def processParaCore (wof : WidthFn) (ims : List ImgSpec) (i : Nat)
    (isH isSub isSubSub : Bool) (textToRender : List Char) (st : GenState) : GenState :=
  let st := headingSpace ims i isH isSub isSubSub st
  let requiredLineHeight : ℚ := if isH then 108 / 5 else if isSub then 104 / 5 else 18
  let st := ensureRoom ims requiredLineHeight st
  let textSize : ℚ := if isH then 18 else if isSub then 16 else if isSubSub then 14 else 12
  let lineHeight : ℚ := if isH then 108 / 5 else if isSub then 104 / 5 else 18
  let bold := isH || isSub || isSubSub
  let words := splitWords textToRender
  let p := wrapLoop wof ims bold textSize lineHeight words [] st
  let bottomSpacing : ℚ := if isH then 12 else if isSub || isSubSub then 10 else 16
  finishLine p.1 textSize lineHeight bottomSpacing bold p.2

/-- Processing of one paragraph (route lines 293-460): cleaning, the
`continue` for empty text (line 340), then the layout of
`processParaCore`. -/
def processPara (wof : WidthFn) (ims : List ImgSpec) (i : Nat) (para : List Char)
    (st : GenState) : GenState :=
  if paraT2 para = [] then st
  else processParaCore wof ims i (paraIsH para) (paraIsSub para) (paraIsSubSub para)
    (paraText para) st

/-- The paragraph loop (route line 293). -/
def processParas (wof : WidthFn) (ims : List ImgSpec) :
    Nat → List (List Char) → GenState → GenState
  | _, [], st => st
  | i, p :: ps, st => processParas wof ims (i + 1) ps (processPara wof ims i p st)

/-- Initial state: the page added at route line 123 and the cursor of
line 148. -/
def initState : GenState :=
  { pageDims := [(612, 792)], y := 720, currentPageIndex := 0,
    placed := [], texts := [], imagesDrawn := [] }

/-- `generateWhitepaperPDF` (route lines 109-472): `none` models the
thrown error for empty content (lines 115-117); otherwise the full
layout is run and the final document state returned. -/
def generateWhitepaperPDF (content : String) (ims : List ImgSpec) (wof : WidthFn) :
    Option GenState :=
  if trimJS content.data = [] then none
  else some (processParas wof ims 0 (computeParagraphs content.data) initState)

/-! ## The POST handler (route lines 651-1295)

The handler's interaction with the outside world (OpenAI, Pinecone,
Gemini, the clock) is captured by oracles.  The chat oracle stands for
the whole content-generation phase (initial completion plus the
word-count continuation loop of lines 954-1002, which only appends to
the content); the image oracle gives the result of the n-th
`generateImage` call.  The prompt-construction strings and the
post-processing regex normalisations of lines 1052-1118, which only
reshape the content string, are not needed by any claim and are left
out of the model. -/

/-- A JSON value as far as truthiness is concerned. -/
inductive JVal
  | jnull
  | jbool (b : Bool)
  | jnum (q : ℚ)
  | jstr (s : String)
deriving Repr, DecidableEq

/-- JavaScript truthiness of `body.prompt` (`none` is an absent
property, i.e. `undefined`). -/
def truthy : Option JVal → Bool
  | none => false
  | some JVal.jnull => false
  | some (JVal.jbool b) => b
  | some (JVal.jnum q) => q != 0
  | some (JVal.jstr s) => s != ""

/-- The parsed request body fields the handler destructures (route line
666).  `imageFreqParsed` is the result of matching `imageFrequency`
against `/(\d+)\s*image.*?per\s*(\d+)/i` (route lines 1121-1125):
`none` when the field is absent, not a string, or does not match. -/
structure Body where
  prompt : Option JVal
  outputFormat : Option String
  numPages : Nat
  imageFreqParsed : Option (Nat × Nat)
  frameworks : List String
deriving Repr, DecidableEq

/-- External effects the handler can perform. -/
inductive Effect
  | embed
  | vectorQuery
  | chat
  | genImage (page : Nat)
  | buildDoc (fmt : String)
deriving Repr, DecidableEq

/-- Oracles for the external services. -/
structure Oracles where
  chatResult : Option String
  imageResult : Nat → Option String
  now : Nat

/-- One successfully generated image of the scheduling loop. -/
structure GenImage where
  pageIndex : Nat
  base64 : String
deriving Repr, DecidableEq

/-- The page indices at which image generation is attempted (route
lines 1142-1167): `floor(totalPages / pagesPerImage)` groups, each
group `g` attempting pages `(g+1)*pagesPerImage - 1 + k` for
`k < imagesPerCount`, skipping indices at or beyond `totalPages`. -/
def attemptedPages (imagesPerCount pagesPerImage totalPages : Nat) : List Nat :=
  (List.range (totalPages / pagesPerImage)).flatMap fun g =>
    ((List.range imagesPerCount).map fun k => (g + 1) * pagesPerImage - 1 + k).filter
      fun p => p < totalPages

/-- The image-generation loop (route lines 1133-1210): attempt every
scheduled page in order; a result is kept when the oracle returns data
longer than 100 characters (route line 1185). -/
def scheduleImages (imageFreqParsed : Option (Nat × Nat)) (numPages : Nat)
    (imageResult : Nat → Option String) : List Nat × List GenImage :=
  match imageFreqParsed with
  | none => ([], [])
  | some (n, m) =>
    if 0 < n ∧ 0 < m then
      let sched := attemptedPages n m (min numPages 50)
      (sched,
        sched.enum.filterMap fun gi =>
          match imageResult gi.1 with
          | some s => if 100 < s.length then some ⟨gi.2, s⟩ else none
          | none => none)
    else ([], [])

/-- Output-format dispatch (route lines 1222-1243): MIME type and file
extension. -/
def mimeExt (outputFormat : String) : String × String :=
  if outputFormat = "pdf" then ("application/pdf", "pdf")
  else if outputFormat = "docx" then
    ("application/vnd.openxmlformats-officedocument.wordprocessingml.document", "docx")
  else if outputFormat = "ppt" then
    ("application/vnd.openxmlformats-officedocument.presentationml.presentation", "pptx")
  else ("text/plain", "txt")

/-- The exported document of the chosen branch; the fallback branch
exports the content string itself. -/
inductive DocBuffer
  | fromPDF
  | fromDOCX
  | fromPPT
  | fromText (content : String)
deriving Repr, DecidableEq

/-- The handler's outcome. -/
inductive PostResult
  | errJson
  | errPrompt
  | errGeneration
  | ok (filename mime : String) (doc : DocBuffer) (numPagesResp : Nat)
      (images : List GenImage) (contentField : Option String)
deriving Repr, DecidableEq

/-- HTTP status of an outcome (route lines 660-663, 668-673,
1010-1017, 1026-1032, 1247-1258). -/
def statusOf : PostResult → Nat
  | PostResult.errJson => 400
  | PostResult.errPrompt => 400
  | PostResult.errGeneration => 500
  | PostResult.ok _ _ _ _ _ _ => 200

/-- The `error` field of an error response. -/
def errorMsg : PostResult → Option String
  | PostResult.errJson => some "Invalid JSON in request body"
  | PostResult.errPrompt => some "Prompt is required"
  | PostResult.errGeneration => some "Failed to generate whitepaper content"
  | PostResult.ok _ _ _ _ _ _ => none

/-- The framework ids with an entry in `frameworkQueries` (route lines
13-35); only these cause an extra embedding and vector query in the
loop of lines 689-714. -/
def knownFrameworkIds : List String :=
  ["swot", "pestel", "porter", "value-chain", "business-model-canvas",
   "competitive-analysis", "stakeholder-map", "risk-assessment",
   "market-segmentation", "technology-roadmap",
   "geogame-design-review-matrix", "failure-taxonomy",
   "standard-case-study-template", "comparative-analysis-failures-vs-successes",
   "success-framework-stress-test", "do-not-build-checklist",
   "total-addressable-market-tam", "platform-dependency-risk-assessment",
   "core-loop-analysis"]

/-- The POST handler (route lines 651-1295).  `body?` is the result of
`request.json()` (`none` models a parse failure).  Returns the outcome
and the list of external effects performed, in order. -/
def POST (body? : Option Body) (orc : Oracles) : PostResult × List Effect :=
  match body? with
  | none => (PostResult.errJson, [])
  | some body =>
    if truthy body.prompt = false then (PostResult.errPrompt, [])
    else
      let ctxEffects :=
        Effect.embed :: Effect.vectorQuery ::
          (body.frameworks.filter (fun f => f ∈ knownFrameworkIds)).flatMap
            (fun _ => [Effect.embed, Effect.vectorQuery])
      match orc.chatResult with
      | none => (PostResult.errGeneration, ctxEffects ++ [Effect.chat])
      | some content =>
        if trimJS content.data = [] then
          (PostResult.errGeneration, ctxEffects ++ [Effect.chat])
        else
          let sched := scheduleImages body.imageFreqParsed body.numPages orc.imageResult
          let fmt := body.outputFormat.getD "pdf"
          let me := mimeExt fmt
          let filename := "whitepaper-" ++ Nat.repr orc.now ++ "." ++ me.2
          let doc :=
            if fmt = "pdf" then DocBuffer.fromPDF
            else if fmt = "docx" then DocBuffer.fromDOCX
            else if fmt = "ppt" then DocBuffer.fromPPT
            else DocBuffer.fromText content
          (PostResult.ok filename me.1 doc (min body.numPages 50) sched.2
            (if fmt = "ppt" then none else some content),
           ctxEffects ++ [Effect.chat] ++ sched.1.map Effect.genImage
             ++ [Effect.buildDoc fmt])

/-! ## The download-history module (`DownloadsMenu`, part_002) -/

/-- One entry of the `geogame_downloaded_files` history. -/
structure DownloadedFile where
  id : String
  filename : String
  mimeType : String
  document : String
  createdAt : String
  format : String
  size : Option Nat
deriving Repr, DecidableEq

/-- The browser's localStorage slot for the history: `none` when the
key was never written. -/
def Storage : Type := Option (List DownloadedFile)

/-- `getDownloadedFiles`: parse the stored JSON, or `[]` when the key
is absent. -/
def getDownloadedFiles (st : Storage) : List DownloadedFile :=
  match st with
  | none => []
  | some files => files

/-- The fields of a file to save (everything but `id`/`createdAt`). -/
structure NewFile where
  filename : String
  mimeType : String
  document : String
  format : String
  size : Option Nat
deriving Repr, DecidableEq

/-- `saveFileToDownloads`: prepend the new entry (id from `Date.now()`,
`createdAt` from the clock) and keep only the first 50 entries. -/
def saveFileToDownloads (st : Storage) (f : NewFile) (nowId nowIso : String) :
    DownloadedFile × Storage :=
  let files := getDownloadedFiles st
  let newFile : DownloadedFile :=
    { id := nowId, filename := f.filename, mimeType := f.mimeType,
      document := f.document, createdAt := nowIso, format := f.format,
      size := f.size }
  (newFile, some ((newFile :: files).take 50))

/-- `deleteDownloadedFile`: keep exactly the entries whose id differs
from the argument. -/
def deleteDownloadedFile (st : Storage) (fileId : String) : Storage :=
  some ((getDownloadedFiles st).filter (fun f => f.id ≠ fileId))

/-! ## Accessors and concrete instances used in the statements -/

/-- The MIME type of a success response. -/
def resultMime : PostResult → Option String
  | PostResult.ok _ mime _ _ _ _ => some mime
  | _ => none

/-- The filename of a success response. -/
def resultFilename : PostResult → Option String
  | PostResult.ok filename _ _ _ _ _ => some filename
  | _ => none

/-- The exported document of a success response. -/
def resultDoc : PostResult → Option DocBuffer
  | PostResult.ok _ _ doc _ _ _ => some doc
  | _ => none

/-- The `numPages` field of a success response. -/
def resultNumPages : PostResult → Option Nat
  | PostResult.ok _ _ _ np _ _ => some np
  | _ => none

/-- The generated images of a success response. -/
def resultImages : PostResult → List GenImage
  | PostResult.ok _ _ _ _ ims _ => ims
  | _ => []

/-- A width oracle making every line fit. -/
def wofZero : WidthFn := fun _ _ _ => 0

/-- A width oracle making every two-word line overflow, forcing a page
break every 36 lines. -/
def wideWidth : WidthFn := fun _ l _ => (l.length : ℚ) * 300

/-- An image targeting the first page (0-indexed page 0). -/
def imgPageZero : ImgSpec := { pageIndex := 0, pixW := 100, pixH := 100, ok := true }

/-- An image targeting the second page (0-indexed page 1). -/
def imgPageOne : ImgSpec := { pageIndex := 1, pixW := 100, pixH := 100, ok := true }

/-- A 52-word content: under `wideWidth` each word becomes a line, so
layout overflows onto a second page. -/
def contentLong : String :=
  "a b c d e f g h i j k l m n o p q r s t u v w x y z aa bb cc dd ee ff gg hh ii jj kk ll mm nn oo pp qq rr ss tt uu vv ww xx yy zz"

/-- The final state of the one-paragraph run on "hello". -/
def wStHello : GenState := (generateWhitepaperPDF "hello" [] wofZero).getD initState

/-- The final state of the two-page run with an image on page 1. -/
def wStPages : GenState :=
  (generateWhitepaperPDF contentLong [imgPageOne] wideWidth).getD initState

/-- The single text line drawn by the "hello" run. -/
def wTextHello : DrawnText :=
  { page := 0, x := 72, y := 720, size := 12, bold := false, text := "hello".data }

/-- A well-formed request body asking for DOCX output. -/
def bodyDocx : Body :=
  { prompt := some (JVal.jstr "topic"), outputFormat := some "docx",
    numPages := 7, imageFreqParsed := none, frameworks := [] }

/-- A request body without a prompt. -/
def bodyNoPrompt : Body :=
  { prompt := none, outputFormat := some "pdf",
    numPages := 7, imageFreqParsed := none, frameworks := [] }

/-- A request body asking for one image every two pages of a
five-page PDF. -/
def bodyFreq : Body :=
  { prompt := some (JVal.jstr "topic"), outputFormat := some "pdf",
    numPages := 5, imageFreqParsed := some (1, 2), frameworks := [] }

/-- Oracles with a successful generation and no image results. -/
def orcW : Oracles :=
  { chatResult := some "Generated whitepaper text.", imageResult := fun _ => none,
    now := 1700000000000 }

/-! ## Lemmas on the string utilities -/

theorem mem_trimJS {c : Char} {l : List Char} (h : c ∈ trimJS l) : c ∈ l := by
  unfold trimJS at h
  rw [List.mem_reverse] at h
  have h2 := (List.dropWhile_sublist isWS).mem h
  rw [List.mem_reverse] at h2
  exact (List.dropWhile_sublist isWS).mem h2

theorem nonWS_mem_dropWhile {c : Char} {l : List Char}
    (hc : c ∈ l) (hws : isWS c = false) : c ∈ l.dropWhile isWS := by
  induction l with
  | nil => cases hc
  | cons a r ih =>
    rcases List.mem_cons.mp hc with h | h
    · subst h
      rw [List.dropWhile_cons, hws]
      simp
    · rw [List.dropWhile_cons]
      by_cases ha : isWS a
      · simp [ha, ih h]
      · simp [ha]
        right
        exact h

theorem nonWS_mem_trimJS {c : Char} {l : List Char}
    (hc : c ∈ l) (hws : isWS c = false) : c ∈ trimJS l := by
  unfold trimJS
  rw [List.mem_reverse]
  apply nonWS_mem_dropWhile _ hws
  rw [List.mem_reverse]
  exact nonWS_mem_dropWhile hc hws

theorem trimJS_ne_nil {l : List Char} (h : ∃ c ∈ l, isWS c = false) :
    trimJS l ≠ [] := by
  rcases h with ⟨c, hc, hws⟩
  intro hnil
  have := nonWS_mem_trimJS hc hws
  rw [hnil] at this
  cases this

theorem exists_nonWS_of_trimJS_ne_nil {l : List Char} (h : trimJS l ≠ []) :
    ∃ c ∈ l, isWS c = false := by
  by_contra hall
  push_neg at hall
  apply h
  have : l.dropWhile isWS = [] := by
    apply List.dropWhile_eq_nil_iff.mpr
    intro c hc
    have := hall c hc
    simp at this ⊢
    exact this
  unfold trimJS
  rw [this]
  simp

theorem mem_stripHashGo {c : Char} {m : HashSt} {l : List Char}
    (h : c ∈ stripHashGo m l) : c ∈ l := by
  induction l generalizing m with
  | nil => simp [stripHashGo] at h
  | cons a r ih =>
    cases m with
    | lineStart =>
      rw [stripHashGo] at h
      split at h
      · exact List.mem_cons_of_mem _ (ih h)
      · split at h
        · rcases List.mem_cons.mp h with h | h
          · simp_all
          · exact List.mem_cons_of_mem _ (ih h)
        · rcases List.mem_cons.mp h with h | h
          · simp_all
          · exact List.mem_cons_of_mem _ (ih h)
    | middle =>
      rw [stripHashGo] at h
      split at h
      · rcases List.mem_cons.mp h with h | h
        · simp_all
        · exact List.mem_cons_of_mem _ (ih h)
      · rcases List.mem_cons.mp h with h | h
        · simp_all
        · exact List.mem_cons_of_mem _ (ih h)
    | skipHash =>
      rw [stripHashGo] at h
      split at h
      · exact List.mem_cons_of_mem _ (ih h)
      · split at h
        · exact List.mem_cons_of_mem _ (ih h)
        · rcases List.mem_cons.mp h with h | h
          · simp_all
          · exact List.mem_cons_of_mem _ (ih h)
    | skipWs b =>
      rw [stripHashGo] at h
      split at h
      · exact List.mem_cons_of_mem _ (ih h)
      · split at h
        · exact List.mem_cons_of_mem _ (ih h)
        · rcases List.mem_cons.mp h with h | h
          · simp_all
          · exact List.mem_cons_of_mem _ (ih h)

theorem mem_removeDouble {c x : Char} {l : List Char}
    (h : c ∈ removeDouble x l) : c ∈ l := by
  induction l using removeDouble.induct x with
  | case1 => simp [removeDouble] at h
  | case2 a => simpa [removeDouble] using h
  | case3 a b r hab ih =>
    rw [removeDouble, if_pos hab] at h
    exact List.mem_cons_of_mem _ (List.mem_cons_of_mem _ (ih h))
  | case4 a b r hab ih =>
    rw [removeDouble, if_neg hab] at h
    rcases List.mem_cons.mp h with h | h
    · simp [h]
    · exact List.mem_cons_of_mem _ (ih h)

theorem mem_collapseWSGo {c : Char} {b : Bool} {l : List Char}
    (h : c ∈ collapseWSGo b l) : c = ' ' ∨ c ∈ l := by
  induction l generalizing b with
  | nil => simp [collapseWSGo] at h
  | cons a r ih =>
    rw [collapseWSGo] at h
    split at h
    · split at h
      · rcases ih h with h | h
        · exact Or.inl h
        · exact Or.inr (List.mem_cons_of_mem _ h)
      · rcases List.mem_cons.mp h with h | h
        · exact Or.inl h
        · rcases ih h with h | h
          · exact Or.inl h
          · exact Or.inr (List.mem_cons_of_mem _ h)
    · rcases List.mem_cons.mp h with h | h
      · exact Or.inr (by simp [h])
      · rcases ih h with h | h
        · exact Or.inl h
        · exact Or.inr (List.mem_cons_of_mem _ h)

theorem mem_mapRNT {c : Char} {l : List Char} (h : c ∈ mapRNT l) :
    c = ' ' ∨ c ∈ l := by
  unfold mapRNT at h
  rcases List.mem_map.mp h with ⟨d, hd, hde⟩
  by_cases hrnt : d = '\r' ∨ d = '\n' ∨ d = '\t'
  · rw [if_pos hrnt] at hde
    exact Or.inl hde.symm
  · rw [if_neg hrnt] at hde
    exact Or.inr (hde ▸ hd)

theorem mem_splitCharGo {sep : Char} {acc l : List Char} {p : List Char}
    (hp : p ∈ splitCharGo sep acc l) {c : Char} (hc : c ∈ p) :
    c ∈ acc ∨ c ∈ l := by
  induction l generalizing acc with
  | nil =>
    simp only [splitCharGo, List.mem_singleton] at hp
    subst hp
    rw [List.mem_reverse] at hc
    exact Or.inl hc
  | cons a r ih =>
    rw [splitCharGo] at hp
    split at hp
    · rcases List.mem_cons.mp hp with h | h
      · subst h
        rw [List.mem_reverse] at hc
        exact Or.inl hc
      · rcases ih h with h' | h'
        · cases h'
        · exact Or.inr (List.mem_cons_of_mem _ h')
    · rcases ih hp with h' | h'
      · rcases List.mem_cons.mp h' with h'' | h''
        · exact Or.inr (by simp [h''])
        · exact Or.inl h''
      · exact Or.inr (List.mem_cons_of_mem _ h')

theorem mem_splitWords {t w : List Char} (hw : w ∈ splitWords t) {c : Char}
    (hc : c ∈ w) : c ∈ t := by
  unfold splitWords splitChar at hw
  have := List.mem_filter.mp hw
  rcases mem_splitCharGo this.1 hc with h | h
  · cases h
  · exact h

theorem splitWords_nonWS {t w : List Char} (hw : w ∈ splitWords t) :
    ∃ c ∈ w, isWS c = false := by
  unfold splitWords at hw
  have := List.mem_filter.mp hw
  have h2 : trimJS w ≠ [] := by simpa using this.2
  exact exists_nonWS_of_trimJS_ne_nil h2

theorem splitCharGo_covers {sep : Char} {acc l : List Char} {c : Char}
    (hc : c ∈ acc ∨ c ∈ l) (hne : c ≠ sep) : ∃ p ∈ splitCharGo sep acc l, c ∈ p := by
  induction l generalizing acc with
  | nil =>
    rcases hc with h | h
    · exact ⟨acc.reverse, by simp [splitCharGo], by simpa using h⟩
    · cases h
  | cons a r ih =>
    rw [splitCharGo]
    split
    · next ha =>
      rcases hc with h | h
      · exact ⟨acc.reverse, by simp, by simpa using h⟩
      · rcases List.mem_cons.mp h with h' | h'
        · exact absurd (h'.trans ha) hne
        · rcases ih (Or.inr h') with ⟨p, hp, hcp⟩
          exact ⟨p, List.mem_cons_of_mem _ hp, hcp⟩
    · next ha =>
      rcases hc with h | h
      · exact ih (Or.inl (List.mem_cons_of_mem _ h))
      · rcases List.mem_cons.mp h with h' | h'
        · exact ih (Or.inl (by simp [h']))
        · exact ih (Or.inr h')

theorem exists_nonWS_mem_self {l : List Char} (h : trimJS l ≠ []) :
    ∃ c ∈ trimJS l, isWS c = false := by
  rcases exists_nonWS_of_trimJS_ne_nil h with ⟨c, hc, hws⟩
  exact ⟨c, nonWS_mem_trimJS hc hws, hws⟩

theorem splitWords_ne_nil {t : List Char} (h : ∃ c ∈ t, isWS c = false) :
    splitWords t ≠ [] := by
  rcases h with ⟨c, hc, hws⟩
  have hne : c ≠ ' ' := by
    intro he
    rw [he] at hws
    simp [isWS] at hws
  unfold splitWords splitChar
  rcases @splitCharGo_covers ' ' [] t c (Or.inr hc) hne with ⟨p, hp, hcp⟩
  intro hnil
  have : p ∈ List.filter (fun w => decide (trimJS w ≠ [])) (splitCharGo ' ' [] t) := by
    rw [List.mem_filter]
    refine ⟨hp, ?_⟩
    simp only [decide_eq_true_eq]
    exact trimJS_ne_nil ⟨c, hcp, hws⟩
  rw [hnil] at this
  cases this

/-! ## The cleaned paragraph text is free of markdown characters -/

/-- No markdown character survives the cleaning: the text contains no
`#`, no `*` and no `_` (hence also none of the substrings `**` and
`__`). -/
def NoMark (l : List Char) : Prop := '#' ∉ l ∧ '*' ∉ l ∧ '_' ∉ l

theorem not_mem_removeAllChar (x : Char) (l : List Char) :
    x ∉ removeAllChar x l := by
  intro h
  have := List.mem_filter.mp h
  simp at this

theorem mem_removeAllChar {c x : Char} {l : List Char}
    (h : c ∈ removeAllChar x l) : c ∈ l :=
  (List.mem_filter.mp h).1

theorem containsPair_mem {x : Char} {l : List Char}
    (h : containsPair x l = true) : x ∈ l := by
  induction l with
  | nil => simp [containsPair] at h
  | cons a r ih =>
    match r, h with
    | [], h => simp [containsPair] at h
    | b :: r', h =>
      rw [containsPair, Bool.or_eq_true] at h
      rcases h with h | h
      · rw [Bool.and_eq_true] at h
        have : a = x := by simpa using h.1
        simp [this]
      · exact List.mem_cons_of_mem _ (ih h)

theorem mem_mapUnderscore {c : Char} {l : List Char}
    (h : c ∈ l.map (fun c => if c = '_' then ' ' else c)) :
    c = ' ' ∨ (c ∈ l ∧ c ≠ '_') := by
  rcases List.mem_map.mp h with ⟨d, hd, hde⟩
  by_cases hu : d = '_'
  · rw [if_pos hu] at hde
    exact Or.inl hde.symm
  · rw [if_neg hu] at hde
    subst hde
    exact Or.inr ⟨hd, hu⟩

theorem mem_mapNL {c : Char} {l : List Char}
    (h : c ∈ l.map (fun c => if c = '\n' then ' ' else c)) :
    c = ' ' ∨ c ∈ l := by
  rcases List.mem_map.mp h with ⟨d, hd, hde⟩
  by_cases hu : d = '\n'
  · rw [if_pos hu] at hde
    exact Or.inl hde.symm
  · rw [if_neg hu] at hde
    exact Or.inr (hde ▸ hd)

/-- After the always-applied markdown removals of route lines 327-330,
`*` and `_` are gone; the later transformations (trim, newline
replacement, whitespace collapse) never reintroduce them. -/
theorem cleanMarkdown_no_star_underscore (cleaned0 : List Char) :
    '*' ∉ cleanMarkdown cleaned0 ∧ '_' ∉ cleanMarkdown cleaned0 := by
  unfold cleanMarkdown
  set cleaned3 := removeAllChar '*' (removeDouble '_' (removeDouble '*' cleaned0)) with hc3
  set cleaned4 := cleaned3.map (fun c => if c = '_' then ' ' else c) with hc4
  set t1 := ((trimJS cleaned4).map (fun c => if c = '\n' then ' ' else c)).filter
    (fun c => c ≠ '\r') with ht1
  have h3s : '*' ∉ cleaned3 := not_mem_removeAllChar _ _
  have h4 : ∀ c, c ∈ cleaned4 → c ≠ '*' ∧ c ≠ '_' := by
    intro c hc
    rcases mem_mapUnderscore hc with h | ⟨hmem, hne⟩
    · subst h
      exact ⟨by decide, by decide⟩
    · constructor
      · intro he
        exact h3s (he ▸ hmem)
      · exact hne
  have h1 : ∀ c, c ∈ t1 → c ≠ '*' ∧ c ≠ '_' := by
    intro c hc
    have hc' := (List.mem_filter.mp hc).1
    rcases mem_mapNL hc' with h | h
    · subst h
      exact ⟨by decide, by decide⟩
    · exact h4 c (mem_trimJS h)
  constructor
  · intro hmem
    rcases mem_collapseWSGo (mem_trimJS hmem) with h | h
    · simp at h
    · exact (h1 _ h).1 rfl
  · intro hmem
    rcases mem_collapseWSGo (mem_trimJS hmem) with h | h
    · simp at h
    · exact (h1 _ h).2 rfl

/-- The validation step yields markdown-free text whenever `*` and `_`
are already gone. -/
theorem validateText_noMark {t2 : List Char} (hs : '*' ∉ t2) (hu : '_' ∉ t2) :
    NoMark (validateText t2) := by
  unfold validateText
  by_cases hcond : (t2.contains '#' || containsPair '*' t2 || containsPair '_' t2) = true
  · rw [if_pos hcond]
    refine ⟨?_, ?_, ?_⟩
    · intro h
      have h1 := mem_trimJS h
      have h2 := mem_removeAllChar h1
      have h3 := mem_removeDouble h2
      have h4 := mem_removeDouble h3
      exact not_mem_removeAllChar '#' t2 h4
    · intro h
      exact not_mem_removeAllChar '*' _ (mem_trimJS h)
    · intro h
      have h1 := mem_trimJS h
      have h2 := mem_removeAllChar h1
      have h3 := mem_removeDouble h2
      have h4 := mem_removeDouble h3
      exact hu (mem_removeAllChar h4)
  · rw [if_neg hcond]
    rw [Bool.or_eq_true, Bool.or_eq_true] at hcond
    push_neg at hcond
    refine ⟨?_, hs, hu⟩
    intro h
    apply hcond.1.1
    rw [List.contains_eq_any_beq, List.any_eq_true]
    exact ⟨'#', h, by simp⟩

/-- The final `textToRender` of any paragraph contains no `#`, `*`
or `_` (route lines 312-350). -/
theorem paraText_noMark (para : List Char) : NoMark (paraText para) := by
  have h := cleanMarkdown_no_star_underscore (paraCleaned0 para)
  exact validateText_noMark h.1 h.2

theorem noMark_clean {cl : List Char} (h : NoMark cl) :
    NoMark (trimJS (mapRNT cl)) := by
  refine ⟨?_, ?_, ?_⟩
  · intro hc
    rcases mem_mapRNT (mem_trimJS hc) with h' | h'
    · simp at h'
    · exact h.1 h'
  · intro hc
    rcases mem_mapRNT (mem_trimJS hc) with h' | h'
    · simp at h'
    · exact h.2.1 h'
  · intro hc
    rcases mem_mapRNT (mem_trimJS hc) with h' | h'
    · simp at h'
    · exact h.2.2 h'

theorem nonWS_mem_mapRNT {c : Char} {l : List Char}
    (hc : c ∈ l) (hws : isWS c = false) : c ∈ mapRNT l := by
  unfold mapRNT
  rw [List.mem_map]
  refine ⟨c, hc, ?_⟩
  have : ¬(c = '\r' ∨ c = '\n' ∨ c = '\t') := by
    rintro (h | h | h) <;> (subst h; simp [isWS] at hws)
  rw [if_neg this]

/-! ## The layout invariant -/

/-- A drawn text line is in the vertical text area and free of
markdown characters. -/
def TextOK (t : DrawnText) : Prop := 72 ≤ t.y ∧ t.y ≤ 720 ∧ NoMark t.text

/-- Invariant maintained by the whole layout loop: every drawn line is
in range, the cursor never exceeds the top of the text area, every
page measures 612x792, the page count tracks the current page index,
every placed image sits on the page it targets, and no page receives
two images. -/
def MI (st : GenState) : Prop :=
  (∀ t ∈ st.texts, TextOK t) ∧
  st.y ≤ 720 ∧
  (∀ d ∈ st.pageDims, d = ((612 : ℚ), (792 : ℚ))) ∧
  st.pageDims.length = st.currentPageIndex + 1 ∧
  (∀ r ∈ st.imagesDrawn,
    r.page = r.target ∧ r.target ∈ st.placed ∧ r.target ≤ st.currentPageIndex) ∧
  (st.imagesDrawn.map PlacedImage.target).Nodup

theorem MI_initState : MI initState := by
  refine ⟨?_, ?_, ?_, ?_, ?_, ?_⟩ <;> simp [initState, TextOK]

/-- The scaled image height is between 0 and 316.8 (route lines
249-265). -/
theorem scaledDims_h_bounds (pixW pixH : Nat) :
    0 ≤ (scaledDims pixW pixH).2 ∧ (scaledDims pixW pixH).2 ≤ 1584 / 5 := by
  unfold scaledDims
  simp only []
  set w1 : ℚ := (pixW : ℚ) with hw1
  set h1 : ℚ := (pixH : ℚ) with hh1
  have hw0 : 0 ≤ w1 := by positivity
  have hh0 : 0 ≤ h1 := by positivity
  set p2 := if 468 < w1 then (w1 * (468 / w1), h1 * (468 / w1)) else (w1, h1) with hp2
  have hp20 : 0 ≤ p2.2 := by
    rw [hp2]
    split
    · next hgt =>
      have : (0 : ℚ) < w1 := lt_trans (by norm_num) hgt
      positivity
    · exact hh0
  by_cases hbig : 1584 / 5 < p2.2
  · rw [if_pos hbig]
    have hne : p2.2 ≠ 0 := by
      intro h0
      rw [h0] at hbig
      norm_num at hbig
    have : p2.2 * (1584 / 5 / p2.2) = 1584 / 5 := by
      field_simp
      ring
    rw [this]
    norm_num
  · rw [if_neg hbig]
    exact ⟨hp20, le_of_not_lt hbig⟩

theorem newPage_MI {st : GenState} (h : MI st) : MI (newPage st) := by
  obtain ⟨ht, hy, hd, hl, hr, hnd⟩ := h
  refine ⟨ht, by norm_num [newPage], ?_, ?_, ?_, hnd⟩
  · intro d hd'
    rw [newPage] at hd'
    simp only [List.mem_append, List.mem_singleton] at hd'
    rcases hd' with h' | h'
    · exact hd d h'
    · exact h'
  · simp [newPage, hl]
  · intro r hr'
    rcases hr r hr' with ⟨h1, h2, h3⟩
    exact ⟨h1, h2, Nat.le_succ_of_le h3⟩

/-- Full specification of the break-and-place idiom: the drawn text is
unchanged, the invariant is preserved, and the cursor lands between
379.2 (a full page minus a maximal image and its spacing) and 720. -/
theorem breakAndPlace_spec {st : GenState} (ims : List ImgSpec) (h : MI st) :
    (breakAndPlace ims st).texts = st.texts ∧
    MI (breakAndPlace ims st) ∧
    1896 / 5 ≤ (breakAndPlace ims st).y ∧ (breakAndPlace ims st).y ≤ 720 := by
  unfold breakAndPlace
  set s1 := newPage st with hs1
  have h1 : MI s1 := newPage_MI h
  have hy1 : s1.y = 720 := by rw [hs1, newPage]
  set k := s1.currentPageIndex with hk
  obtain ⟨ht, hy, hd, hl, hr, hnd⟩ := h1
  unfold placeImageIfNeeded
  by_cases hmem : k ∈ s1.placed
  · rw [if_pos hmem]
    exact ⟨rfl, ⟨ht, hy, hd, hl, hr, hnd⟩, by rw [hy1]; norm_num, by rw [hy1]⟩
  · rw [if_neg hmem]
    cases hfd : ims.find? (fun im => im.pageIndex == k) with
    | none =>
      exact ⟨rfl, ⟨ht, hy, hd, hl, hr, hnd⟩, by rw [hy1]; norm_num, by rw [hy1]⟩
    | some im =>
      simp only []
      by_cases hok : im.ok = true
      · rw [if_pos hok]
        have himt : im.pageIndex = k := by
          have := List.find?_some hfd
          simpa using this
        have hhb := scaledDims_h_bounds im.pixW im.pixH
        set d := scaledDims im.pixW im.pixH with hdd
        have hnobreak : ¬(s1.y - d.2 - 16 < 72) := by
          rw [hy1]
          have := hhb.2
          linarith
        rw [if_neg hnobreak]
        refine ⟨rfl, ⟨ht, ?_, hd, hl, ?_, ?_⟩, ?_, ?_⟩
        · simp only []
          rw [hy1]
          have := hhb.1
          linarith
        · intro r hr'
          simp only [List.mem_cons] at hr'
          rcases hr' with h' | h'
          · subst h'
            refine ⟨?_, ?_, ?_⟩
            · show s1.currentPageIndex = im.pageIndex
              rw [himt]
            · show im.pageIndex ∈ k :: s1.placed
              rw [himt]
              exact List.mem_cons_self _ _
            · show im.pageIndex ≤ s1.currentPageIndex
              rw [himt]
          · rcases hr r h' with ⟨ha, hb, hc⟩
            exact ⟨ha, List.mem_cons_of_mem _ hb, hc⟩
        · simp only [List.map_cons, List.nodup_cons]
          refine ⟨?_, hnd⟩
          intro hmem'
          rcases List.mem_map.mp hmem' with ⟨r, hrmem, hrt⟩
          have := (hr r hrmem).2.1
          rw [hrt, himt] at this
          exact hmem this
        · simp only []
          rw [hy1]
          have := hhb.2
          linarith
        · simp only []
          rw [hy1]
          have := hhb.1
          linarith
      · rw [if_neg hok]
        exact ⟨rfl, ⟨ht, hy, hd, hl, hr, hnd⟩, by rw [hy1]; norm_num, by rw [hy1]⟩

/-- Specification of one wrap iteration: the invariant and the cursor
lower bound are preserved, the running line stays clean, new text is
drawn with the paragraph's font flags, and after consuming a word the
running line contains a non-whitespace character. -/
theorem wrapStep_spec (wof : WidthFn) (ims : List ImgSpec) (bold : Bool) (sz lh : ℚ)
    (hlh1 : 18 ≤ lh) (hlh2 : lh ≤ 108 / 5)
    (w cl : List Char) (st : GenState)
    (hmi : MI st) (hcur : 72 + lh ≤ st.y) (hcl : NoMark cl) (hw : NoMark w)
    (hwne : ∃ c ∈ w, isWS c = false) :
    MI (wrapStep wof ims bold sz lh w cl st).2 ∧
    72 + lh ≤ (wrapStep wof ims bold sz lh w cl st).2.y ∧
    NoMark (wrapStep wof ims bold sz lh w cl st).1 ∧
    (∀ t ∈ (wrapStep wof ims bold sz lh w cl st).2.texts,
      t ∈ st.texts ∨ (t.bold = bold ∧ t.size = sz)) ∧
    st.texts.length ≤ (wrapStep wof ims bold sz lh w cl st).2.texts.length ∧
    (∃ c ∈ (wrapStep wof ims bold sz lh w cl st).1, isWS c = false) := by
  have htest : NoMark (if cl ≠ [] then cl ++ ' ' :: w else w) := by
    split
    · refine ⟨?_, ?_, ?_⟩
      · intro hmem
        rcases List.mem_append.mp hmem with h | h
        · exact hcl.1 h
        · rcases List.mem_cons.mp h with h | h
          · simp at h
          · exact hw.1 h
      · intro hmem
        rcases List.mem_append.mp hmem with h | h
        · exact hcl.2.1 h
        · rcases List.mem_cons.mp h with h | h
          · simp at h
          · exact hw.2.1 h
      · intro hmem
        rcases List.mem_append.mp hmem with h | h
        · exact hcl.2.2 h
        · rcases List.mem_cons.mp h with h | h
          · simp at h
          · exact hw.2.2 h
    · exact hw
  have htestne : ∃ c ∈ (if cl ≠ [] then cl ++ ' ' :: w else w), isWS c = false := by
    rcases hwne with ⟨c, hc, hws⟩
    split
    · exact ⟨c, List.mem_append_right _ (List.mem_cons_of_mem _ hc), hws⟩
    · exact ⟨c, hc, hws⟩
  unfold wrapStep
  by_cases hwide : 612 - 72 * 2 < wof bold (mapRNT (if cl ≠ [] then cl ++ ' ' :: w else w)) sz
  · rw [if_pos hwide]
    by_cases hclne : cl ≠ []
    · rw [if_pos hclne]
      set cleanLine := trimJS (mapRNT cl) with hclean
      have hclean_nm : NoMark cleanLine := noMark_clean hcl
      -- the state after the optional draw
      set st1 := if cleanLine ≠ [] then
          { drawText st cleanLine sz bold with y := st.y - lh } else st with hst1
      have h1 : MI st1 ∧ (∀ t ∈ st1.texts, t ∈ st.texts ∨ (t.bold = bold ∧ t.size = sz)) ∧
          st.texts.length ≤ st1.texts.length := by
        rw [hst1]
        split
        · obtain ⟨ht, hy, hd, hl, hr, hnd⟩ := hmi
          refine ⟨⟨?_, ?_, hd, hl, hr, hnd⟩, ?_, ?_⟩
          · intro t htm
            simp only [drawText, List.mem_cons] at htm
            rcases htm with h' | h'
            · subst h'
              refine ⟨?_, ?_, hclean_nm⟩
              · simp only []
                linarith
              · simp only []
                linarith [hy]
            · exact ht t h'
          · simp only []
            linarith
          · intro t htm
            simp only [drawText, List.mem_cons] at htm
            rcases htm with h' | h'
            · subst h'
              exact Or.inr ⟨rfl, rfl⟩
            · exact Or.inl h'
          · simp [drawText]
        · exact ⟨hmi, fun t ht => Or.inl ht, le_refl _⟩
      by_cases hbreak : st1.y - lh < 72
      · rw [if_pos hbreak]
        have hbp := breakAndPlace_spec ims h1.1
        refine ⟨hbp.2.1, ?_, hw, ?_, ?_, hwne⟩
        · have := hbp.2.2.1
          linarith
        · intro t htm
          rw [hbp.1] at htm
          exact h1.2.1 t htm
        · rw [hbp.1]
          exact h1.2.2
      · rw [if_neg hbreak]
        refine ⟨h1.1, by linarith, hw, h1.2.1, h1.2.2, hwne⟩
    · rw [if_neg hclne]
      exact ⟨hmi, hcur, hw, fun t ht => Or.inl ht, le_refl _, hwne⟩
  · rw [if_neg hwide]
    exact ⟨hmi, hcur, htest, fun t ht => Or.inl ht, le_refl _, htestne⟩

/-- Specification of the whole word-wrapping loop. -/
theorem wrapLoop_spec (wof : WidthFn) (ims : List ImgSpec) (bold : Bool) (sz lh : ℚ)
    (hlh1 : 18 ≤ lh) (hlh2 : lh ≤ 108 / 5) :
    ∀ (ws : List (List Char)) (cl : List Char) (st : GenState),
    MI st → 72 + lh ≤ st.y → NoMark cl →
    (∀ w ∈ ws, NoMark w) → (∀ w ∈ ws, ∃ c ∈ w, isWS c = false) →
    MI (wrapLoop wof ims bold sz lh ws cl st).2 ∧
    72 + lh ≤ (wrapLoop wof ims bold sz lh ws cl st).2.y ∧
    NoMark (wrapLoop wof ims bold sz lh ws cl st).1 ∧
    (∀ t ∈ (wrapLoop wof ims bold sz lh ws cl st).2.texts,
      t ∈ st.texts ∨ (t.bold = bold ∧ t.size = sz)) ∧
    st.texts.length ≤ (wrapLoop wof ims bold sz lh ws cl st).2.texts.length ∧
    (ws ≠ [] → ∃ c ∈ (wrapLoop wof ims bold sz lh ws cl st).1, isWS c = false) := by
  intro ws
  induction ws with
  | nil =>
    intro cl st hmi hcur hcl _ _
    exact ⟨hmi, hcur, hcl, fun t ht => Or.inl ht, le_refl _, by simp⟩
  | cons w ws ih =>
    intro cl st hmi hcur hcl hnm hne
    have hstep := wrapStep_spec wof ims bold sz lh hlh1 hlh2 w cl st hmi hcur hcl
      (hnm w (List.mem_cons_self _ _)) (hne w (List.mem_cons_self _ _))
    rw [wrapLoop]
    set q := wrapStep wof ims bold sz lh w cl st with hq
    have hrest := ih q.1 q.2 hstep.1 hstep.2.1 hstep.2.2.1
      (fun v hv => hnm v (List.mem_cons_of_mem _ hv))
      (fun v hv => hne v (List.mem_cons_of_mem _ hv))
    refine ⟨hrest.1, hrest.2.1, hrest.2.2.1, ?_, ?_, ?_⟩
    · intro t htm
      rcases hrest.2.2.2.1 t htm with h' | h'
      · exact hstep.2.2.2.1 t h'
      · exact Or.inr h'
    · exact le_trans hstep.2.2.2.2.1 hrest.2.2.2.2.1
    · intro _
      by_cases hws : ws = []
      · subst hws
        simp only [wrapLoop]
        exact hstep.2.2.2.2.2
      · exact hrest.2.2.2.2.2 hws

theorem headingSpace_spec (ims : List ImgSpec) (i : Nat) (isH isSub isSubSub : Bool)
    {st : GenState} (hmi : MI st) :
    MI (headingSpace ims i isH isSub isSubSub st) ∧
    (headingSpace ims i isH isSub isSubSub st).texts = st.texts := by
  unfold headingSpace
  split
  · dsimp only
    set ts : ℚ := if isH then 24 else if isSub || isSubSub then 20 else 0 with hts
    have hts0 : 0 ≤ ts := by
      rw [hts]
      split
      · norm_num
      · split <;> norm_num
    split
    · have h := breakAndPlace_spec ims hmi
      exact ⟨h.2.1, h.1⟩
    · split
      · obtain ⟨ht, hy, hd, hl, hr, hnd⟩ := hmi
        refine ⟨⟨ht, ?_, hd, hl, hr, hnd⟩, rfl⟩
        simp only []
        linarith
      · exact ⟨hmi, rfl⟩
  · exact ⟨hmi, rfl⟩

theorem ensureRoom_spec (ims : List ImgSpec) (reqLH : ℚ)
    (hle : reqLH ≤ 108 / 5) {st : GenState} (hmi : MI st) :
    MI (ensureRoom ims reqLH st) ∧
    (ensureRoom ims reqLH st).texts = st.texts ∧
    72 + reqLH ≤ (ensureRoom ims reqLH st).y := by
  unfold ensureRoom
  split
  · have h := breakAndPlace_spec ims hmi
    refine ⟨h.2.1, h.1, ?_⟩
    have := h.2.2.1
    linarith
  · next hno =>
    push_neg at hno
    exact ⟨hmi, rfl, by linarith⟩

theorem finishLine_spec (cl : List Char) (sz lh bs : ℚ) (bold : Bool) {st : GenState}
    (hmi : MI st) (hcur : 72 + lh ≤ st.y) (hlh : 0 < lh) (hbs : 0 < bs)
    (hcl : NoMark cl) :
    MI (finishLine cl sz lh bs bold st) ∧
    (∀ u ∈ (finishLine cl sz lh bs bold st).texts,
      u ∈ st.texts ∨ (u.bold = bold ∧ u.size = sz)) ∧
    st.texts.length ≤ (finishLine cl sz lh bs bold st).texts.length ∧
    ((∃ c ∈ cl, isWS c = false) →
      st.texts.length < (finishLine cl sz lh bs bold st).texts.length) := by
  have hy720 := hmi.2.1
  unfold finishLine
  by_cases hclne : cl ≠ []
  · rw [if_pos hclne]
    by_cases hcle : trimJS (mapRNT cl) ≠ []
    · rw [if_pos hcle]
      obtain ⟨ht, hy, hd, hl, hr, hnd⟩ := hmi
      refine ⟨⟨?_, ?_, hd, hl, hr, hnd⟩, ?_, ?_, ?_⟩
      · intro u hu
        simp only [drawText, List.mem_cons] at hu
        rcases hu with h' | h'
        · subst h'
          exact ⟨by simp only []; linarith, by simp only []; linarith,
            noMark_clean hcl⟩
        · exact ht u h'
      · simp only [drawText]
        linarith
      · intro u hu
        simp only [drawText, List.mem_cons] at hu
        rcases hu with h' | h'
        · subst h'
          exact Or.inr ⟨rfl, rfl⟩
        · exact Or.inl h'
      · simp [drawText]
      · intro _
        simp [drawText]
    · rw [if_neg hcle]
      refine ⟨hmi, fun u hu => Or.inl hu, le_refl _, ?_⟩
      rintro ⟨c, hc, hws⟩
      exact absurd (trimJS_ne_nil ⟨c, nonWS_mem_mapRNT hc hws, hws⟩) (by simpa using hcle)
  · rw [if_neg hclne]
    refine ⟨hmi, fun u hu => Or.inl hu, le_refl _, ?_⟩
    rintro ⟨c, hc, _⟩
    push_neg at hclne
    subst hclne
    cases hc

/-- Full specification of the layout of one paragraph: the invariant
is preserved, every newly drawn line carries the paragraph's font
flags, and a paragraph whose text has a non-whitespace character
draws at least one line. -/
theorem processParaCore_spec (wof : WidthFn) (ims : List ImgSpec) (i : Nat)
    (isH isSub isSubSub : Bool) (t : List Char) (st : GenState)
    (hmi : MI st) (hnm : NoMark t) :
    MI (processParaCore wof ims i isH isSub isSubSub t st) ∧
    (∀ u ∈ (processParaCore wof ims i isH isSub isSubSub t st).texts,
      u ∈ st.texts ∨ (u.bold = (isH || isSub || isSubSub) ∧
        u.size = (if isH then (18 : ℚ) else if isSub then 16 else if isSubSub then 14 else 12))) ∧
    ((∃ c ∈ t, isWS c = false) →
      st.texts.length < (processParaCore wof ims i isH isSub isSubSub t st).texts.length) := by
  have hlh1 : (18 : ℚ) ≤ (if isH then (108 : ℚ) / 5 else if isSub then 104 / 5 else 18) := by
    cases isH <;> cases isSub <;> norm_num
  have hlh2 : (if isH then (108 : ℚ) / 5 else if isSub then 104 / 5 else 18) ≤ 108 / 5 := by
    cases isH <;> cases isSub <;> norm_num
  have hbs : (0 : ℚ) < (if isH then (12 : ℚ) else if isSub || isSubSub then 10 else 16) := by
    cases isH <;> cases isSub <;> cases isSubSub <;> norm_num
  unfold processParaCore
  set lh : ℚ := if isH then (108 : ℚ) / 5 else if isSub then 104 / 5 else 18 with hlh
  set sz : ℚ := if isH then (18 : ℚ) else if isSub then 16 else if isSubSub then 14 else 12 with hsz
  set bs : ℚ := if isH then (12 : ℚ) else if isSub || isSubSub then 10 else 16 with hbsdef
  have h1 := headingSpace_spec ims i isH isSub isSubSub hmi
  set s1 := headingSpace ims i isH isSub isSubSub st with hs1
  have h2 := ensureRoom_spec ims lh hlh2 h1.1
  set s2 := ensureRoom ims lh s1 with hs2
  have hwords1 : ∀ w ∈ splitWords t, NoMark w := by
    intro w hw
    exact ⟨fun hc => hnm.1 (mem_splitWords hw hc),
      fun hc => hnm.2.1 (mem_splitWords hw hc),
      fun hc => hnm.2.2 (mem_splitWords hw hc)⟩
  have hwords2 : ∀ w ∈ splitWords t, ∃ c ∈ w, isWS c = false :=
    fun w hw => splitWords_nonWS hw
  have h3 := wrapLoop_spec wof ims (isH || isSub || isSubSub) sz lh hlh1 hlh2
    (splitWords t) [] s2 h2.1 h2.2.2 (by refine ⟨?_, ?_, ?_⟩ <;> simp)
    hwords1 hwords2
  set p := wrapLoop wof ims (isH || isSub || isSubSub) sz lh (splitWords t) [] s2 with hp
  have h4 := finishLine_spec p.1 sz lh bs (isH || isSub || isSubSub) h3.1 h3.2.1
    (by linarith) hbs h3.2.2.1
  refine ⟨h4.1, ?_, ?_⟩
  · intro u hu
    rcases h4.2.1 u hu with h' | h'
    · rcases h3.2.2.2.1 u h' with h'' | h''
      · rw [h2.2.1, h1.2] at h''
        exact Or.inl h''
      · exact Or.inr h''
    · exact Or.inr h'
  · intro hex
    have hwne : splitWords t ≠ [] := splitWords_ne_nil hex
    have hclne := h3.2.2.2.2.2 hwne
    have hlt := h4.2.2.2 hclne
    have hle1 : st.texts.length = s2.texts.length := by
      rw [h2.2.1, h1.2]
    have hle2 := h3.2.2.2.2.1
    exact hle1 ▸ lt_of_le_of_lt hle2 hlt

/-! ## The invariant through the whole generation -/

theorem processPara_MI (wof : WidthFn) (ims : List ImgSpec) (i : Nat) (para : List Char)
    {st : GenState} (hmi : MI st) : MI (processPara wof ims i para st) := by
  unfold processPara
  split
  · exact hmi
  · exact (processParaCore_spec wof ims i _ _ _ _ st hmi (paraText_noMark para)).1

theorem processParas_MI (wof : WidthFn) (ims : List ImgSpec) :
    ∀ (ps : List (List Char)) (i : Nat) (st : GenState), MI st →
      MI (processParas wof ims i ps st) := by
  intro ps
  induction ps with
  | nil => intro i st h; exact h
  | cons p ps ih =>
    intro i st h
    exact ih (i + 1) _ (processPara_MI wof ims i p h)

/-- Every successful run of the generator satisfies the layout
invariant. -/
theorem generateWhitepaperPDF_MI {content : String} {ims : List ImgSpec} {wof : WidthFn}
    {st : GenState} (h : generateWhitepaperPDF content ims wof = some st) : MI st := by
  unfold generateWhitepaperPDF at h
  split at h
  · cases h
  · injection h with h'
    rw [← h']
    exact processParas_MI wof ims _ 0 initState MI_initState

/-! ## Heading paragraphs -/

theorem headingMatch_bounds {l : List Char} {n : Nat} {g2 : List Char}
    (h : headingMatch l = some (n, g2)) : 1 ≤ n ∧ n ≤ 3 := by
  unfold headingMatch at h
  dsimp only at h
  split at h
  · next hcond =>
    split at h
    · cases h
    · split at h
      · split at h
        · cases h
        · injection h with h'
          injection h' with h1 h2
          exact h1 ▸ hcond
      · split at h
        · split at h
          · injection h with h'
            injection h' with h1 h2
            exact h1 ▸ hcond
          · cases h
        · cases h
  · cases h

/-- The heading flags when the heading regex matches with `n` hash
characters. -/
theorem paraFlags_of_hm (para : List Char) (n : Nat) (g2 : List Char)
    (hm : paraHm para = some (n, g2)) :
    paraIsH para = decide (n = 1) ∧
    paraIsSub para = decide (n = 2) ∧
    paraIsSubSub para = decide (n = 3) := by
  obtain ⟨hb1, hb2⟩ := headingMatch_bounds hm
  unfold paraIsH paraIsSub paraIsSubSub
  rw [hm]
  interval_cases n <;> simp

theorem paraText_of_t2_nil {para : List Char}
    (h : paraT2 para = []) : paraText para = [] := by
  unfold paraText
  rw [h]
  decide

theorem paraText_trim (para : List Char) :
    ∃ x, paraText para = trimJS x := by
  unfold paraText validateText
  split
  · exact ⟨_, rfl⟩
  · unfold paraT2 cleanMarkdown
    exact ⟨_, rfl⟩

/-- A heading paragraph whose cleaned text is non-empty draws at
least one line, and every line it draws is bold at the size determined
by the number of `#` characters. -/
theorem processPara_heading_spec (wof : WidthFn) (ims : List ImgSpec) (i : Nat)
    (para : List Char) (st : GenState) (n : Nat) (g2 : List Char)
    (hmi : MI st)
    (hm : paraHm para = some (n, g2))
    (ht3 : paraText para ≠ []) :
    (∀ u ∈ (processPara wof ims i para st).texts,
      u ∈ st.texts ∨ (u.bold = true ∧
        u.size = (if n = 1 then (18 : ℚ) else if n = 2 then 16 else 14))) ∧
    st.texts.length < (processPara wof ims i para st).texts.length := by
  obtain ⟨hb1, hb2⟩ := headingMatch_bounds hm
  have hfl := paraFlags_of_hm para n g2 hm
  have ht2 : ¬(paraT2 para = []) := by
    intro h
    exact ht3 (paraText_of_t2_nil h)
  have hex : ∃ c ∈ paraText para, isWS c = false := by
    rcases paraText_trim para with ⟨x, hx⟩
    rw [hx] at ht3 ⊢
    exact exists_nonWS_mem_self ht3
  unfold processPara
  rw [if_neg ht2]
  have hcore := processParaCore_spec wof ims i (paraIsH para) (paraIsSub para)
    (paraIsSubSub para) (paraText para) st hmi (paraText_noMark para)
  constructor
  · intro u hu
    rcases hcore.2.1 u hu with h' | h'
    · exact Or.inl h'
    · refine Or.inr ⟨?_, ?_⟩
      · rw [h'.1, hfl.1, hfl.2.1, hfl.2.2]
        interval_cases n <;> simp
      · rw [h'.2, hfl.1, hfl.2.1, hfl.2.2]
        interval_cases n <;> simp
  · exact hcore.2.2 hex

/-! ## Claim theorems -/

/-- C1 (counterexample): the claim "generateWhitepaperPDF embeds each
image exactly once, on the generated page whose index equals that
image's pageIndex field" is false: on content "hello" with a single
image targeting page 0, the generator draws no image at all, because
`placeImageIfNeeded` is only invoked after a page break and page 0 is
never re-entered. -/
theorem C1_counterexample :
    (generateWhitepaperPDF "hello" [imgPageZero] wofZero).map GenState.imagesDrawn
      = some [] := by
  with_unfolding_all decide

/-- C1 (amended): generateWhitepaperPDF embeds each image at most
once — no page index receives two images — and every image it does
embed is drawn on the existing generated page whose index equals the
image's pageIndex field; images whose target page is never created by
a page break (in particular page 0) are not embedded. -/
theorem C1_image_placement (content : String) (ims : List ImgSpec) (wof : WidthFn)
    (st : GenState) (h : generateWhitepaperPDF content ims wof = some st) :
    (st.imagesDrawn.map PlacedImage.target).Nodup ∧
    (∀ r ∈ st.imagesDrawn, r.page = r.target ∧ r.page < st.pageDims.length) := by
  have hmi := generateWhitepaperPDF_MI h
  refine ⟨hmi.2.2.2.2.2, ?_⟩
  intro r hr
  rcases hmi.2.2.2.2.1 r hr with ⟨h1, _, h3⟩
  refine ⟨h1, ?_⟩
  rw [hmi.2.2.2.1, h1]
  exact Nat.lt_succ_of_le h3

/-- C1 (witness): the two-page run with an image targeting page 1
satisfies the amended claim. -/
theorem C1_witness : (wStPages.imagesDrawn.map PlacedImage.target).Nodup :=
  (C1_image_placement contentLong [imgPageOne] wideWidth wStPages
    (by with_unfolding_all rfl)).1

/-- C2: page breaks add a fresh 612x792 page and reset the cursor to
720 = 792 - 72, and consequently every drawText call of the generator
happens at a y-coordinate between 72 and 720 inclusive, for every
content, image list and width oracle. -/
theorem C2_cursor_range :
    (∀ st : GenState, (newPage st).y = 720 ∧
      (newPage st).pageDims = st.pageDims ++ [((612 : ℚ), (792 : ℚ))]) ∧
    (∀ (content : String) (ims : List ImgSpec) (wof : WidthFn) (st : GenState),
      generateWhitepaperPDF content ims wof = some st →
      ∀ t ∈ st.texts, 72 ≤ t.y ∧ t.y ≤ 720) := by
  constructor
  · intro st
    exact ⟨rfl, rfl⟩
  · intro content ims wof st h t ht
    have hmi := generateWhitepaperPDF_MI h
    rcases hmi.1 t ht with ⟨h1, h2, _⟩
    exact ⟨h1, h2⟩

/-- C2 (witness): the single line of the "hello" run is drawn at
y = 720, inside the required range. -/
theorem C2_witness : 72 ≤ wTextHello.y ∧ wTextHello.y ≤ 720 :=
  C2_cursor_range.2 "hello" [] wofZero wStHello (by with_unfolding_all rfl)
    wTextHello (by with_unfolding_all decide)

/-- C3: every page the generator creates measures exactly 612 by 792
points, for every content, image list and width oracle: the final page
list is a replicate of (612, 792). -/
theorem C3_page_dimensions (content : String) (ims : List ImgSpec) (wof : WidthFn)
    (st : GenState) (h : generateWhitepaperPDF content ims wof = some st) :
    st.pageDims = List.replicate st.pageDims.length ((612 : ℚ), (792 : ℚ)) := by
  have hmi := generateWhitepaperPDF_MI h
  exact List.eq_replicate_of_mem hmi.2.2.1

/-- C3 (witness): the two-page run created exactly two 612x792
pages. -/
theorem C3_witness :
    wStPages.pageDims = List.replicate wStPages.pageDims.length ((612 : ℚ), (792 : ℚ)) :=
  C3_page_dimensions contentLong [imgPageOne] wideWidth wStPages
    (by with_unfolding_all rfl)

/-- C4: the generator is total and single-pass: the paragraph loop is
a left fold over the computed paragraph list (each paragraph processed
exactly once, in order, with its index), the word-wrapping loop is a
left fold over the word list (each word consumed exactly once), and
the generator returns a document for every content with non-blank
text. -/
theorem C4_single_pass_termination :
    (∀ (wof : WidthFn) (ims : List ImgSpec) (ps : List (List Char)) (i : Nat)
      (st : GenState),
      processParas wof ims i ps st =
        List.foldl (fun s q => processPara wof ims q.1 q.2 s) st (List.enumFrom i ps)) ∧
    (∀ (wof : WidthFn) (ims : List ImgSpec) (bold : Bool) (sz lh : ℚ)
      (ws : List (List Char)) (cl : List Char) (st : GenState),
      wrapLoop wof ims bold sz lh ws cl st =
        List.foldl (fun q w => wrapStep wof ims bold sz lh w q.1 q.2) (cl, st) ws) ∧
    (∀ (content : String) (ims : List ImgSpec) (wof : WidthFn),
      trimJS content.data ≠ [] → (generateWhitepaperPDF content ims wof).isSome = true) := by
  refine ⟨?_, ?_, ?_⟩
  · intro wof ims ps
    induction ps with
    | nil => intro i st; rfl
    | cons p ps ih =>
      intro i st
      rw [processParas, List.enumFrom, List.foldl_cons]
      exact ih (i + 1) _
  · intro wof ims bold sz lh ws
    induction ws with
    | nil => intro cl st; rfl
    | cons w ws ih =>
      intro cl st
      rw [wrapLoop, List.foldl_cons]
      exact ih _ _
  · intro content ims wof h
    unfold generateWhitepaperPDF
    rw [if_neg h]
    rfl

/-- C4 (witness): the generator completes on the content "hello". -/
theorem C4_witness : (generateWhitepaperPDF "hello" [] wofZero).isSome = true :=
  C4_single_pass_termination.2.2 "hello" [] wofZero (by decide)

/-- C5 (counterexample): the claim fails for the single-line paragraph
"# \x2a\x2a": its first non-whitespace characters are one `#` followed by a
space and the non-empty title consisting of two asterisks, yet the
generator draws nothing at all — in particular no bold 18pt line —
because the title is empty after markdown removal. -/
theorem C5_counterexample :
    paraHm "# **".data = some (1, ['*', '*']) ∧
    (generateWhitepaperPDF "# **" [] wofZero).map GenState.texts = some [] := by
  constructor
  · decide
  · with_unfolding_all decide

/-- C5 (amended): a single-line paragraph matching the heading regex
with one, two or three `#` characters, whose title is non-empty after
markdown removal, draws at least one line, and every line it draws is
bold at 18, 16 or 14 points respectively; moreover, in every run of
the generator no drawn line contains the characters `#`, `*` or `_`
(hence none of the substrings `**` and `__` either). -/
theorem C5_heading_rendering :
    (∀ (wof : WidthFn) (ims : List ImgSpec) (i : Nat) (para : List Char)
      (st : GenState) (n : Nat) (g2 : List Char),
      MI st → paraHm para = some (n, g2) → paraText para ≠ [] →
      (∀ u ∈ (processPara wof ims i para st).texts,
        u ∈ st.texts ∨ (u.bold = true ∧
          u.size = (if n = 1 then (18 : ℚ) else if n = 2 then 16 else 14))) ∧
      st.texts.length < (processPara wof ims i para st).texts.length) ∧
    (∀ (content : String) (ims : List ImgSpec) (wof : WidthFn) (st : GenState),
      generateWhitepaperPDF content ims wof = some st →
      ∀ t ∈ st.texts, '#' ∉ t.text ∧ '*' ∉ t.text ∧ '_' ∉ t.text) := by
  constructor
  · intro wof ims i para st n g2 hmi hm ht3
    exact processPara_heading_spec wof ims i para st n g2 hmi hm ht3
  · intro content ims wof st h t ht
    have hmi := generateWhitepaperPDF_MI h
    exact (hmi.1 t ht).2.2

/-- C5 (witness): the heading paragraph "# Title" draws a line from
the empty initial state. -/
theorem C5_witness :
    initState.texts.length <
      (processPara wofZero [] 0 "# Title".data initState).texts.length :=
  (C5_heading_rendering.1 wofZero [] 0 "# Title".data initState 1 "Title".data
    MI_initState (by decide) (by decide)).2

/-! ## Content without carriage returns (for C7) -/

theorem normCRLF_of_no_cr {c : List Char} (h : '\r' ∉ c) : normCRLF c = c := by
  induction c using normCRLF.induct with
  | case1 => rfl
  | case2 a => rfl
  | case3 a b rest hab ih =>
    exact absurd (by simp [hab.1]) h
  | case4 a b rest hab ih =>
    rw [normCRLF, if_neg hab, ih (fun hm => h (List.mem_cons_of_mem _ hm))]

theorem crToNL_of_no_cr {c : List Char} (h : '\r' ∉ c) : crToNL c = c := by
  unfold crToNL
  induction c with
  | nil => rfl
  | cons a r ih =>
    rw [List.map_cons, if_neg (fun he => h (by simp [he])),
      ih (fun hm => h (List.mem_cons_of_mem _ hm))]

theorem normalizeContent_of_no_cr {c : List Char} (h : '\r' ∉ c) :
    normalizeContent c = c := by
  unfold normalizeContent
  rw [normCRLF_of_no_cr h, crToNL_of_no_cr h]

/-- C7: the DOCX and PPTX generators compute the same paragraph
segmentation (split on blank-line runs, dropping whitespace-only
pieces); for content without carriage returns the PDF generator
computes that same segmentation whenever it has at least 5 paragraphs,
and below 5 paragraphs the PDF generator instead re-splits on single
newlines, grouping consecutive non-heading lines (with the trimmed
content itself as last-resort fallback). -/
theorem C7_paragraph_segmentation :
    (∀ c : List Char, docxParagraphs c = pptParagraphs c) ∧
    (∀ c : List Char, '\r' ∉ c → 5 ≤ (docxParagraphs c).length →
      computeParagraphs c = docxParagraphs c) ∧
    (∀ c : List Char, '\r' ∉ c → (docxParagraphs c).length < 5 →
      computeParagraphs c =
        (if (regroupLines c).length = 0 ∧ trimJS c ≠ [] then [trimJS c]
         else regroupLines c)) := by
  refine ⟨fun c => rfl, ?_, ?_⟩
  · intro c hcr h5
    unfold computeParagraphs
    dsimp only
    rw [normalizeContent_of_no_cr hcr]
    unfold docxParagraphs at h5 ⊢
    have hin : ¬((splitNN c).filter (fun p => trimJS p ≠ [])).length < 5 := by omega
    rw [if_neg hin]
    have hout : ¬(((splitNN c).filter (fun p => trimJS p ≠ [])).length = 0 ∧
        trimJS c ≠ []) := by
      rintro ⟨h0, _⟩
      omega
    rw [if_neg hout]
  · intro c hcr h5
    unfold computeParagraphs
    dsimp only
    rw [normalizeContent_of_no_cr hcr]
    unfold docxParagraphs at h5
    have hin : ((splitNN c).filter (fun p => trimJS p ≠ [])).length < 5 := h5
    rw [if_pos hin]

/-- C7 (witness): on a five-paragraph content the PDF split equals the
DOCX split. -/
theorem C7_witness :
    computeParagraphs "a\n\nb\n\nc\n\nd\n\ne".data =
      docxParagraphs "a\n\nb\n\nc\n\nd\n\ne".data :=
  C7_paragraph_segmentation.2.1 "a\n\nb\n\nc\n\nd\n\ne".data (by decide) (by decide)

/-- C8: a request body that fails JSON parsing is answered with HTTP
400 and error "Invalid JSON in request body", and a parsed body
without a truthy prompt with HTTP 400 and error "Prompt is required";
in both cases the handler performs no external effect: no embedding,
no vector query, no content generation, no image generation and no
document construction. -/
theorem C8_error_paths :
    (∀ orc : Oracles, POST none orc = (PostResult.errJson, []) ∧
      statusOf (POST none orc).1 = 400 ∧
      errorMsg (POST none orc).1 = some "Invalid JSON in request body") ∧
    (∀ (body : Body) (orc : Oracles), truthy body.prompt = false →
      POST (some body) orc = (PostResult.errPrompt, []) ∧
      statusOf (POST (some body) orc).1 = 400 ∧
      errorMsg (POST (some body) orc).1 = some "Prompt is required") := by
  constructor
  · intro orc
    exact ⟨rfl, rfl, rfl⟩
  · intro body orc h
    have hp : POST (some body) orc = (PostResult.errPrompt, []) := by
      unfold POST
      dsimp only
      rw [if_pos h]
    exact ⟨hp, by rw [hp]; rfl, by rw [hp]; rfl⟩

/-- C8 (witness): a body with no prompt is rejected with no effects. -/
theorem C8_witness : POST (some bodyNoPrompt) orcW = (PostResult.errPrompt, []) :=
  (C8_error_paths.2 bodyNoPrompt orcW rfl).1

/-- Reduction of the POST handler on the success path. -/
theorem POST_success (body : Body) (orc : Oracles) (c : String)
    (hp : truthy body.prompt = true) (hc : orc.chatResult = some c)
    (hne : trimJS c.data ≠ []) :
    POST (some body) orc =
      (PostResult.ok
        ("whitepaper-" ++ Nat.repr orc.now ++ "." ++
          (mimeExt (body.outputFormat.getD "pdf")).2)
        (mimeExt (body.outputFormat.getD "pdf")).1
        (if body.outputFormat.getD "pdf" = "pdf" then DocBuffer.fromPDF
         else if body.outputFormat.getD "pdf" = "docx" then DocBuffer.fromDOCX
         else if body.outputFormat.getD "pdf" = "ppt" then DocBuffer.fromPPT
         else DocBuffer.fromText c)
        (min body.numPages 50)
        (scheduleImages body.imageFreqParsed body.numPages orc.imageResult).2
        (if body.outputFormat.getD "pdf" = "ppt" then none else some c),
       (Effect.embed :: Effect.vectorQuery ::
         (body.frameworks.filter (fun f => f ∈ knownFrameworkIds)).flatMap
           (fun _ => [Effect.embed, Effect.vectorQuery]))
         ++ [Effect.chat]
         ++ (scheduleImages body.imageFreqParsed body.numPages orc.imageResult).1.map
              Effect.genImage
         ++ [Effect.buildDoc (body.outputFormat.getD "pdf")]) := by
  unfold POST
  dsimp only
  rw [if_neg (by rw [hp]; simp), hc]
  dsimp only
  rw [if_neg hne]

/-- C6: on the success path the handler exports in the requested
format: outputFormat "pdf" yields MIME `application/pdf` and a
`.pdf` filename, "docx" the DOCX OpenXML MIME type and a `.docx`
filename, "ppt" the PPTX OpenXML MIME type and a `.pptx` filename,
and any other format exports the raw content as `text/plain` with a
`.txt` filename. -/
theorem C6_output_format (body : Body) (orc : Oracles) (c : String)
    (hp : truthy body.prompt = true) (hc : orc.chatResult = some c)
    (hne : trimJS c.data ≠ []) :
    (body.outputFormat.getD "pdf" = "pdf" →
      resultMime (POST (some body) orc).1 = some "application/pdf" ∧
      resultFilename (POST (some body) orc).1 =
        some ("whitepaper-" ++ Nat.repr orc.now ++ ".pdf")) ∧
    (body.outputFormat.getD "pdf" = "docx" →
      resultMime (POST (some body) orc).1 =
        some "application/vnd.openxmlformats-officedocument.wordprocessingml.document" ∧
      resultFilename (POST (some body) orc).1 =
        some ("whitepaper-" ++ Nat.repr orc.now ++ ".docx")) ∧
    (body.outputFormat.getD "pdf" = "ppt" →
      resultMime (POST (some body) orc).1 =
        some "application/vnd.openxmlformats-officedocument.presentationml.presentation" ∧
      resultFilename (POST (some body) orc).1 =
        some ("whitepaper-" ++ Nat.repr orc.now ++ ".pptx")) ∧
    (body.outputFormat.getD "pdf" ≠ "pdf" → body.outputFormat.getD "pdf" ≠ "docx" →
      body.outputFormat.getD "pdf" ≠ "ppt" →
      resultMime (POST (some body) orc).1 = some "text/plain" ∧
      resultFilename (POST (some body) orc).1 =
        some ("whitepaper-" ++ Nat.repr orc.now ++ ".txt") ∧
      resultDoc (POST (some body) orc).1 = some (DocBuffer.fromText c)) := by
  rw [POST_success body orc c hp hc hne]
  refine ⟨?_, ?_, ?_, ?_⟩
  · intro hfmt
    rw [hfmt]
    constructor
    · rfl
    · show some ("whitepaper-" ++ Nat.repr orc.now ++ "." ++ "pdf") = _
      rw [String.append_assoc]
      rfl
  · intro hfmt
    rw [hfmt]
    constructor
    · rfl
    · show some ("whitepaper-" ++ Nat.repr orc.now ++ "." ++ "docx") = _
      rw [String.append_assoc]
      rfl
  · intro hfmt
    rw [hfmt]
    constructor
    · rfl
    · show some ("whitepaper-" ++ Nat.repr orc.now ++ "." ++ "pptx") = _
      rw [String.append_assoc]
      rfl
  · intro h1 h2 h3
    have hm : mimeExt (body.outputFormat.getD "pdf") = ("text/plain", "txt") := by
      unfold mimeExt
      rw [if_neg h1, if_neg h2, if_neg h3]
    refine ⟨?_, ?_, ?_⟩
    · show some (mimeExt (body.outputFormat.getD "pdf")).1 = some "text/plain"
      rw [hm]
    · show some ("whitepaper-" ++ Nat.repr orc.now ++ "." ++
        (mimeExt (body.outputFormat.getD "pdf")).2) =
          some ("whitepaper-" ++ Nat.repr orc.now ++ ".txt")
      rw [hm, String.append_assoc]
      rfl
    · show some (if body.outputFormat.getD "pdf" = "pdf" then DocBuffer.fromPDF
        else if body.outputFormat.getD "pdf" = "docx" then DocBuffer.fromDOCX
        else if body.outputFormat.getD "pdf" = "ppt" then DocBuffer.fromPPT
        else DocBuffer.fromText c) = some (DocBuffer.fromText c)
      rw [if_neg h1, if_neg h2, if_neg h3]

/-- C6 (witness): a DOCX request with a generated document is exported
with the DOCX OpenXML MIME type. -/
theorem C6_witness :
    resultMime (POST (some bodyDocx) orcW).1 =
      some "application/vnd.openxmlformats-officedocument.wordprocessingml.document" :=
  (C6_output_format bodyDocx orcW "Generated whitepaper text." rfl rfl
    (by decide)).2.1 rfl |>.1

/-- C9: with a parsed image frequency of `n` images per `m` pages
(`n, m ≥ 1`), the 0-indexed pages at which image generation is
attempted are exactly the indices `(g+1)*m - 1 + k` for
`g < floor(P/m)` and `k < n` that lie below `P = min(numPages, 50)`;
every generated image's pageIndex is one of them; and the success
response's numPages field equals `min(numPages, 50)`. -/
theorem C9_image_schedule :
    (∀ (n m P x : Nat), 1 ≤ n → 1 ≤ m →
      (x ∈ attemptedPages n m P ↔
        ((∃ g, g < P / m ∧ ∃ k, k < n ∧ x = (g + 1) * m - 1 + k) ∧ x < P))) ∧
    (∀ (n m numPages : Nat) (orc : Nat → Option String), 1 ≤ n → 1 ≤ m →
      ∀ im ∈ (scheduleImages (some (n, m)) numPages orc).2,
        im.pageIndex ∈ attemptedPages n m (min numPages 50)) ∧
    (∀ (body : Body) (orc : Oracles) (c : String) (n m : Nat),
      truthy body.prompt = true → orc.chatResult = some c → trimJS c.data ≠ [] →
      body.imageFreqParsed = some (n, m) → 1 ≤ n → 1 ≤ m →
      (∀ p, Effect.genImage p ∈ (POST (some body) orc).2 ↔
        p ∈ attemptedPages n m (min body.numPages 50)) ∧
      resultNumPages (POST (some body) orc).1 = some (min body.numPages 50)) := by
  have hmem : ∀ (n m P x : Nat),
      x ∈ attemptedPages n m P ↔
        ((∃ g, g < P / m ∧ ∃ k, k < n ∧ x = (g + 1) * m - 1 + k) ∧ x < P) := by
    intro n m P x
    unfold attemptedPages
    simp only [List.mem_flatMap, List.mem_filter, List.mem_map, List.mem_range,
      decide_eq_true_eq]
    constructor
    · rintro ⟨g, hg, ⟨⟨k, hk, hfk⟩, hxP⟩⟩
      exact ⟨⟨g, hg, k, hk, hfk.symm⟩, hxP⟩
    · rintro ⟨⟨g, hg, k, hk, hx⟩, hxP⟩
      exact ⟨g, hg, ⟨k, hk, hx.symm⟩, hxP⟩
  have hsched : ∀ (n m numPages : Nat) (orc : Nat → Option String), 1 ≤ n → 1 ≤ m →
      scheduleImages (some (n, m)) numPages orc =
        (attemptedPages n m (min numPages 50),
         (attemptedPages n m (min numPages 50)).enum.filterMap fun gi =>
           match orc gi.1 with
           | some s => if 100 < s.length then some ⟨gi.2, s⟩ else none
           | none => none) := by
    intro n m numPages orc hn hm
    unfold scheduleImages
    dsimp only
    rw [if_pos ⟨hn, hm⟩]
  refine ⟨fun n m P x _ _ => hmem n m P x, ?_, ?_⟩
  · intro n m numPages orc hn hm im him
    rw [hsched n m numPages orc hn hm] at him
    simp only [List.mem_filterMap] at him
    rcases him with ⟨gi, hgi, hmatch⟩
    have hsnd : gi.2 ∈ attemptedPages n m (min numPages 50) := by
      have h1 := List.mem_enum_iff_getElem?.mp hgi
      exact List.getElem?_mem h1
    split at hmatch
    · split at hmatch
      · injection hmatch with h'
        rw [← h']
        exact hsnd
      · cases hmatch
    · cases hmatch
  · intro body orc c n m hp hc hne hfreq hn hm
    have hpost := POST_success body orc c hp hc hne
    constructor
    · intro p
      rw [hpost]
      rw [hfreq, hsched n m body.numPages orc.imageResult hn hm]
      simp [List.mem_append, List.mem_flatMap]
    · rw [hpost]
      rfl

/-- C9 (witness): for "1 image per 2 pages" on a five-page request the
success response reports five pages. -/
theorem C9_witness :
    resultNumPages (POST (some bodyFreq) orcW).1 = some (min 5 50) :=
  (C9_image_schedule.2.2 bodyFreq orcW "Generated whitepaper text." 1 2 rfl rfl
    (by decide) rfl (by decide) (by decide)).2

/-- C10: saving a file prepends it to the stored history truncated to
50 entries — the new file first, the previous entries following in
their prior order — and `getDownloadedFiles` returns exactly that
list; deleting removes exactly the entries with the given id, keeping
the others in order (the result is a sublist of the history). -/
theorem C10_download_history :
    (∀ (st : Storage) (f : NewFile) (nowId nowIso : String),
      (saveFileToDownloads st f nowId nowIso).2 =
        some ((saveFileToDownloads st f nowId nowIso).1 ::
          (getDownloadedFiles st).take 49) ∧
      getDownloadedFiles (saveFileToDownloads st f nowId nowIso).2 =
        (saveFileToDownloads st f nowId nowIso).1 :: (getDownloadedFiles st).take 49 ∧
      (getDownloadedFiles (saveFileToDownloads st f nowId nowIso).2).length ≤ 50) ∧
    (∀ (st : Storage) (fid : String),
      getDownloadedFiles (deleteDownloadedFile st fid) =
        (getDownloadedFiles st).filter (fun f => f.id ≠ fid) ∧
      (getDownloadedFiles (deleteDownloadedFile st fid)).Sublist
        (getDownloadedFiles st)) := by
  constructor
  · intro st f nowId nowIso
    have htake : ∀ (x : DownloadedFile) (l : List DownloadedFile),
        (x :: l).take 50 = x :: l.take 49 := fun x l => rfl
    refine ⟨?_, ?_, ?_⟩
    · show some (((saveFileToDownloads st f nowId nowIso).1 ::
        getDownloadedFiles st).take 50) = _
      rw [htake]
    · show ((saveFileToDownloads st f nowId nowIso).1 ::
        getDownloadedFiles st).take 50 = _
      rw [htake]
    · show (((saveFileToDownloads st f nowId nowIso).1 ::
        getDownloadedFiles st).take 50).length ≤ 50
      rw [List.length_take]
      exact min_le_left _ _
  · intro st fid
    exact ⟨rfl, List.filter_sublist _⟩

end GeoGame
